import Mathlib

/-
Verification of the stream handler (core/pkg/server/handler.go).

The Go source is shallowly embedded: the handler's mutable fields become a
`HandlerState` structure, every handler method becomes a pure function from
a state (plus its request arguments) to a new state together with an `Out`
value collecting everything the method emitted (forwarded records, results,
printer messages, log warnings/errors, collaborator side effects, file
writes).  Channel sends become list appends, in program order.

Collaborators whose implementation files are not under src/ (ActiveHistory,
Timer, the metric-handler maps, corelib.ConsolidateSummaryItems, the
reservoir sampler, the file-transfer stats object) are modelled from the
specification; each such definition carries a doc comment saying so.
External library calls (strconv.ParseFloat, json.Unmarshal into float32,
fmt.Sprintf floating-point formatting, glob matching) are abstracted as
parameters collected in `Prims`; theorems quantify over every choice of
these primitives.  64-bit floating point values are modelled as rationals.
-/

namespace Wandb

/-- Abstraction of the external library primitives the handler calls:
strconv.ParseFloat (64-bit), json.Unmarshal into a float32, the
fmt.Sprintf "%f" formatting of a float, and the glob pattern matcher used
by the metric handler.  Floats are modelled as rationals. -/
structure Prims where
  parseFloat64 : String → Option Rat
  parseFloat32 : String → Option Rat
  fmtFloat : Rat → String
  globMatch : String → String → Bool

/-- HistoryItem proto message: a key and a JSON-encoded value. -/
structure HistoryItem where
  key : String
  valueJson : String
  deriving DecidableEq

/-- HistoryStep proto message: the (int64) step number. -/
structure HistoryStep where
  num : Int
  deriving DecidableEq

/-- HistoryRecord proto message: an optional step and the item list. -/
structure HistoryRecord where
  step : Option HistoryStep
  item : List HistoryItem
  deriving DecidableEq

/-- HistoryAction proto message: the flush flag of a partial-history request. -/
structure HistoryAction where
  flush : Bool
  deriving DecidableEq

/-- PartialHistoryRequest proto message. -/
structure PartialHistoryRequest where
  item : List HistoryItem
  step : Option HistoryStep
  action : Option HistoryAction
  deriving DecidableEq

/-- MetricRecord options; only the step_sync flag is needed by the handler. -/
structure MetricOptions where
  stepSync : Bool
  deriving DecidableEq

/-- MetricRecord proto message (the fields the handler reads).  Proto getters
on an absent message return the zero value; absent options are `none`. -/
structure MetricRecord where
  name : String
  globName : String
  stepMetric : String
  options : Option MetricOptions
  deriving DecidableEq

/-- DeferRequest proto message: the numeric shutdown state
(BEGIN=0 .. END=14; other values are unknown states). -/
structure DeferRequest where
  state : Int
  deriving DecidableEq

/-- Control block of a record: always_send, local, req_resp flags. -/
structure Control where
  alwaysSend : Bool
  localFlag : Bool
  reqResp : Bool
  deriving DecidableEq

/-- The record kinds this development needs from the Record union. -/
inductive RecType where
  | history (r : HistoryRecord)
  | metric (m : MetricRecord)
  | summaryRec (update : List (String × String))
  | exit (runtime : Int)
  | final
  | footer
  | deferRec (d : DeferRequest)
  deriving DecidableEq

/-- A record as it travels on the channels: an optional control block
(a nil pointer in Go) and the payload. -/
structure Record where
  control : Option Control
  rtype : RecType
  deriving DecidableEq

/-- PollExitResponse; the pusher-stats / file-counts payloads are opaque to
the handler and modelled as numeric identifiers. -/
structure PollExitResponse where
  pusherStats : Option Nat
  fileCounts : Option Nat
  done : Bool
  deriving DecidableEq

/-- One entry of a SampledHistoryResponse. -/
structure SampledItem where
  key : String
  values : List Rat
  deriving DecidableEq

/-- The response payloads this development needs from the Response union. -/
inductive Response where
  | empty
  | pollExit (p : PollExitResponse)
  | sampledHistory (items : List SampledItem)
  deriving DecidableEq

/-- A result sent on the outbound channel: the response plus the request
record's control block (handler.respond copies it). -/
structure Result where
  response : Response
  control : Option Control
  deriving DecidableEq

/-- Calls into external collaborators (system monitor, TensorBoard handler,
run-files uploader), recorded as events. -/
inductive Effect where
  | monitorStop
  | tbClose
  | uploadRemaining
  | uploadNow (file : String)
  deriving DecidableEq

/-- Everything a handler method emits, in program order per field:
forwarded records, outbound results, printer messages, log warnings, log
errors, collaborator effects, files written. -/
structure Out where
  fwds : List Record
  results : List Result
  printed : List String
  warns : List String
  errs : List String
  effects : List Effect
  files : List String
  deriving DecidableEq

def Out.nil : Out := ⟨[], [], [], [], [], [], []⟩

def Out.app (a b : Out) : Out :=
  ⟨a.fwds ++ b.fwds, a.results ++ b.results, a.printed ++ b.printed,
   a.warns ++ b.warns, a.errs ++ b.errs, a.effects ++ b.effects, a.files ++ b.files⟩

def Out.fwd1 (r : Record) : Out := ⟨[r], [], [], [], [], [], []⟩

def Out.res1 (r : Result) : Out := ⟨[], [r], [], [], [], [], []⟩

def Out.eff1 (e : Effect) : Out := ⟨[], [], [], [], [], [e], []⟩

def Out.err1 (m : String) : Out := ⟨[], [], [], [], [m], [], []⟩

/-- Settings fields the embedded functions read (proto getters, false when
absent). -/
structure Settings where
  xSync : Bool
  xShared : Bool
  deriving DecidableEq

/-- RunRecord fields the embedded functions read. -/
structure RunRecord where
  startingStep : Int
  deriving DecidableEq

/-- Modelled from the spec: the Timer (its file is not under src/).  Spec
4.7 gives start/pause/resume with an elapsed readout; spec 4.4 names the
start-time readout used during a history flush run_start_time_seconds, so
the readout the source calls GetStartTimeMicro is modelled as the run start
time in seconds.  The elapsed-seconds reading is kept abstract as a field. -/
structure Timer where
  startTimeSeconds : Rat
  elapsedSec : Int
  running : Bool
  deriving DecidableEq

def timerPause (t : Timer) : Timer := { t with running := false }

/-- Modelled from the spec: the per-key reservoir sampler (its file is not
under src/).  Spec 4.5: fixed capacity and weight parameter, admitted
values kept with bounded memory; only the constructor parameters and the
sequence of admitted values are observable to the claims, so Add is
modelled as recording the value. -/
structure Reservoir where
  cap : Nat
  weight : Rat
  vals : List Rat
  deriving DecidableEq

/-- Modelled from the spec: the ActiveHistory per-step accumulator (its
file is not under src/).  Spec 2 and 4.2: it holds an optional step (set in
client-stepped mode, absent in shared mode) and the map of items keyed by
item key; UpdateValues upserts, Flush hands (step, items) to the flush
callback and clears the items, GetItem looks a key up. -/
structure ActiveHistory where
  stepOpt : Option HistoryStep
  values : List HistoryItem
  deriving DecidableEq

/-- Metric registry state: defined (exact-name) and glob metric maps. -/
structure MetricHandlerState where
  defined : List (String × MetricRecord)
  globs : List (String × MetricRecord)
  deriving DecidableEq

/-- Summary handler state: the consolidated summary and the delta map. -/
structure SummaryHandlerState where
  consolidated : List (String × String)
  delta : List (String × String)
  deriving DecidableEq

/-- Modelled from the spec: the file-transfer stats collaborator contract
(spec 6): GetFilesStats, GetFileCounts, IsDone, SetDone.  The stats
payloads are opaque and modelled as numeric identifiers. -/
structure FileTransferStats where
  filesStats : Nat
  fileCounts : Nat
  done : Bool
  deriving DecidableEq

/-- The Handler's mutable fields.  Pointer-typed collaborators that may be
nil are Options. -/
structure HandlerState where
  settings : Settings
  runRecord : Option RunRecord
  timer : Timer
  activeHistory : Option ActiveHistory
  samplers : Option (List (String × Reservoir))
  metricHandler : Option MetricHandlerState
  summaryHandler : Option SummaryHandlerState
  fileTransferStats : Option FileTransferStats
  uploaderPresent : Bool
  deriving DecidableEq

/-- Association-list lookup (Go map read). -/
def lookupA {α : Type} : List (String × α) → String → Option α
  | [], _ => none
  | p :: rest, k => if p.1 = k then some p.2 else lookupA rest k

/-- Association-list insert-or-replace (Go map write). -/
def setA {α : Type} : List (String × α) → String → α → List (String × α)
  | [], k, v => [(k, v)]
  | p :: rest, k, v => if p.1 = k then (k, v) :: rest else p :: setA rest k v

/-- Lookup of a history item by key in the accumulator's value map. -/
def getItemL : List HistoryItem → String → Option HistoryItem
  | [], _ => none
  | it :: rest, k => if it.key = k then some it else getItemL rest k

/-- Upsert of one history item into the accumulator's value map. -/
def upsertOne : List HistoryItem → HistoryItem → List HistoryItem
  | [], it => [it]
  | v :: rest, it => if v.key = it.key then it :: rest else v :: upsertOne rest it

/-- UpdateValues: upsert a batch of items, left to right. -/
def upsertItems (values : List HistoryItem) (items : List HistoryItem) : List HistoryItem :=
  items.foldl upsertOne values

/-- Fold a batch of winning (key, value_json) pairs into a map, left to
right; used for both the consolidated summary and the delta map. -/
def upsertPairs (m : List (String × String)) (pairs : List (String × String)) :
    List (String × String) :=
  pairs.foldl (fun acc p => setA acc p.1 p.2) m

/-- Modelled from the spec: corelib.ConsolidateSummaryItems (its file is
not under src/).  Spec 4.6: last-writer-wins key/value_json merge of the
items into the consolidated map, returning the updated map and the record
of winning pairs (which the caller folds into the delta map). -/
def consolidateSummaryItems (consolidated : List (String × String))
    (pairs : List (String × String)) : List (String × String) × List (String × String) :=
  (upsertPairs consolidated pairs, pairs)

/-- Proto getter chain metric.GetOptions().GetStepSync() on an optional
metric: false when the metric or its options are absent. -/
def stepSyncOf : Option MetricRecord → Bool
  | some m => (m.options.getD ⟨false⟩).stepSync
  | none => false

/-- Proto getter chain metric.GetStepMetric() on an optional metric. -/
def stepMetricOf : Option MetricRecord → String
  | some m => m.stepMetric
  | none => ""

/-- strings.HasPrefix(key, "_"): the key's first character is an
underscore. -/
def hasUnderscoreStart (k : String) : Bool :=
  match k.data with
  | [] => false
  | c :: _ => c == '_'

/-- Modelled from the spec: MetricHandler.createMatchingGlobMetric (its
file is not under src/).  Spec 4.3: the first glob whose pattern matches
the key produces a new defined metric inheriting the glob's options, with
name = key and the glob name cleared. -/
def createMatchingGlobMetric (P : Prims) (globs : List (String × MetricRecord))
    (key : String) : Option MetricRecord :=
  match globs.find? (fun g => P.globMatch g.1 key) with
  | some g => some { g.2 with name := key, globName := "" }
  | none => none

/-- HistoryRecord.GetStep().GetNum(): 0 when the step is absent. -/
def stepNumOf (h : HistoryRecord) : Int :=
  match h.step with
  | some st => st.num
  | none => 0

/-- RunRecord.GetStartingStep() through the handler's possibly-nil
runRecord pointer. -/
def startingStepOf (s : HandlerState) : Int :=
  match s.runRecord with
  | some r => r.startingStep
  | none => 0

/-- ActiveHistory.GetStep().Num as read by handlePartialHistorySync. -/
def ahStepNum (s : HandlerState) : Int :=
  match s.activeHistory with
  | some ah => (ah.stepOpt.getD ⟨0⟩).num
  | none => 0

/-- ActiveHistory.GetItem on the handler's accumulator (nil-safe). -/
def getActiveItem (s : HandlerState) (k : String) : Option HistoryItem :=
  match s.activeHistory with
  | some ah => getItemL ah.values k
  | none => none

/-- ActiveHistory.UpdateValues on the handler's accumulator (nil-safe). -/
def updateActive (s : HandlerState) (items : List HistoryItem) : HandlerState :=
  { s with activeHistory :=
      s.activeHistory.map (fun ah => { ah with values := upsertItems ah.values items }) }

/-- ActiveHistory.UpdateStep on the handler's accumulator (nil-safe). -/
def updateStep (s : HandlerState) (n : Int) : HandlerState :=
  { s with activeHistory :=
      s.activeHistory.map (fun ah => { ah with stepOpt := some ⟨n⟩ }) }

/-- The consolidated summary as read by imputeStepMetric
(h.summaryHandler.consolidatedSummary). -/
def consolidatedOf (s : HandlerState) : List (String × String) :=
  (s.summaryHandler.map (fun sh => sh.consolidated)).getD []

/-- fwdRecordWithControl: initialize the control block if nil, then apply
the control options. -/
def withControl (r : Record) (f : Control → Control) : Record :=
  { r with control := some (f (r.control.getD ⟨false, false, false⟩)) }

/-- NewReservoirSampler capacity argument in sampleHistory. -/
def reservoirCap : Nat := 48

/-- NewReservoirSampler weight argument in sampleHistory: the source
literal 0.0005, written as the rational 5/10000 (the equality with the
decimal literal is proved in reservoirWeight_eq below). -/
def reservoirWeight : Rat := mkRat 5 10000

/-- One step of sampleHistory's loop: parse the value_json as a float32;
on success, create the key's sampler if absent (capacity 48, weight
0.0005) and add the value to it; otherwise skip the item. -/
def sampleAdd (P : Prims) (m : List (String × Reservoir)) (item : HistoryItem) :
    List (String × Reservoir) :=
  match P.parseFloat32 item.valueJson with
  | none => m
  | some v =>
    let r := (lookupA m item.key).getD { cap := reservoirCap, weight := reservoirWeight, vals := [] }
    setA m item.key { r with vals := r.vals ++ [v] }

/-- sampleHistory: initialize the samplers map if nil, then feed every
item of the record through sampleAdd. -/
def sampleHistory (P : Prims) (samplers : Option (List (String × Reservoir)))
    (items : List HistoryItem) : List (String × Reservoir) :=
  items.foldl (sampleAdd P) (samplers.getD [])

/-- The float32 values parsed, in order, from the items with the given key
(the values sampleHistory admits to that key's sampler). -/
def keyParsedVals (P : Prims) (items : List HistoryItem) (k : String) : List Rat :=
  items.filterMap (fun it => if it.key = k then P.parseFloat32 it.valueJson else none)

/-- The expected sampler-map entry for a key after feeding it a batch of
admitted values: absent entries stay absent when no value was admitted and
are created with capacity 48 and weight 0.0005 otherwise; existing entries
get the values appended. -/
def sampleExpect (old : Option Reservoir) (vs : List Rat) : Option Reservoir :=
  match old with
  | some r => some { r with vals := r.vals ++ vs }
  | none =>
    if vs = [] then none
    else some { cap := reservoirCap, weight := reservoirWeight, vals := vs }

/-- handleStepMetric: register the step metric under its own name if the
key is non-empty and unseen, forwarding a synthesized metric record with
local=true. -/
def handleStepMetric (s : HandlerState) (key : String) : HandlerState × Out :=
  if key = "" then (s, Out.nil)
  else
    match s.metricHandler with
    | none => (s, Out.nil)
    | some mh =>
      if (lookupA mh.defined key).isSome then (s, Out.nil)
      else
        let metric : MetricRecord := { name := key, globName := "", stepMetric := "", options := none }
        let s1 := { s with metricHandler := some { mh with defined := setA mh.defined key metric } }
        (s1, Out.fwd1 { control := some ⟨false, true, false⟩, rtype := RecType.metric metric })

/-- handleMetric: glob-named metrics go to the glob map and are forwarded;
named metrics go to the defined map, register their step metric, and are
forwarded; a metric with neither name is logged as an error. -/
def handleMetric (s : HandlerState) (record : Record) (metric : MetricRecord) :
    HandlerState × Out :=
  match s.metricHandler with
  | none => (s, Out.nil)
  | some mh =>
    if metric.globName ≠ "" then
      ({ s with metricHandler := some { mh with globs := setA mh.globs metric.globName metric } },
       Out.fwd1 record)
    else if metric.name ≠ "" then
      let s1 := { s with metricHandler := some { mh with defined := setA mh.defined metric.name metric } }
      let r1 := handleStepMetric s1 metric.stepMetric
      (r1.1, r1.2.app (Out.fwd1 record))
    else (s, Out.err1 "invalid metric")

/-- matchHistoryItemMetric: internal keys resolve to no metric; otherwise
the defined-metric map is consulted first, then the glob metrics; a fresh
glob-created metric is registered through handleMetric (with a synthesized
record carrying local=true) before being returned. -/
def matchHistoryItemMetric (P : Prims) (s : HandlerState) (item : HistoryItem) :
    HandlerState × Out × Option MetricRecord :=
  if hasUnderscoreStart item.key then (s, Out.nil, none)
  else
    match s.metricHandler with
    | none => (s, Out.nil, none)
    | some mh =>
      match lookupA mh.defined item.key with
      | some metric => (s, Out.nil, some metric)
      | none =>
        match createMatchingGlobMetric P mh.globs item.key with
        | none => (s, Out.nil, none)
        | some metric =>
          let record : Record := { control := some ⟨false, true, false⟩, rtype := RecType.metric metric }
          let r1 := handleMetric s record metric
          (r1.1, r1.2, some metric)

/-- imputeStepMetric: if the item's metric wants step_sync with a non-empty
step metric, and the step-metric key is not in the accumulator but has a
consolidated-summary value, synthesize that item, add it to the
accumulator, and return it. -/
def imputeStepMetric (P : Prims) (s : HandlerState) (item : HistoryItem) :
    HandlerState × Out × Option HistoryItem :=
  let r1 := matchHistoryItemMetric P s item
  let key := stepMetricOf r1.2.2
  if !(stepSyncOf r1.2.2 && !(key = "")) then (r1.1, r1.2.1, none)
  else if (getActiveItem r1.1 key).isSome then (r1.1, r1.2.1, none)
  else
    match lookupA (consolidatedOf r1.1) key with
    | some value =>
      let hi : HistoryItem := ⟨key, value⟩
      (updateActive r1.1 [hi], r1.2.1, some hi)
    | none => (r1.1, r1.2.1, none)

/-- The imputation loop of flushHistory: Go's range captures the item list
once, so the loop runs over the record's items as they were when the loop
started, collecting the synthesized items (appended to the record after
each iteration by the source; concatenated at the end here, which yields
the same final list). -/
def imputeLoop (P : Prims) (s : HandlerState) : List HistoryItem →
    HandlerState × Out × List HistoryItem
  | [] => (s, Out.nil, [])
  | item :: rest =>
    let r := imputeStepMetric P s item
    let r2 := imputeLoop P r.1 rest
    (r2.1, r.2.1.app r2.2.1, r.2.2.toList ++ r2.2.2)

/-- The run-time computation at the top of flushHistory: the accumulator's
_timestamp value parsed as a float minus the run start time, 0 when the
item is absent or unparseable. -/
def flushRunTime (P : Prims) (s : HandlerState) : Rat :=
  match getActiveItem s "_timestamp" with
  | some it =>
    match P.parseFloat64 it.valueJson with
    | some v => v - s.timer.startTimeSeconds
    | none => 0
  | none => 0

/-- The log-error list produced while parsing the accumulator's _timestamp
value at the top of flushHistory. -/
def flushParseErrs (P : Prims) (s : HandlerState) : List String :=
  match getActiveItem s "_timestamp" with
  | some it => if (P.parseFloat64 it.valueJson).isNone then ["error parsing timestamp"] else []
  | none => []

/-- The record's items after flushHistory appends the internal _runtime
item and, outside shared mode, the internal _step item. -/
def flushItems2 (P : Prims) (s : HandlerState) (history : HistoryRecord) : List HistoryItem :=
  let items1 := history.item ++ [⟨"_runtime", P.fmtFloat (flushRunTime P s)⟩]
  if s.settings.xShared then items1
  else items1 ++ [⟨"_step", toString (stepNumOf history)⟩]

/-- The imputation loop as run by flushHistory: skipped entirely when the
metric handler is nil. -/
def flushLoop (P : Prims) (s : HandlerState) (history : HistoryRecord) :
    HandlerState × Out × List HistoryItem :=
  if s.metricHandler.isSome then imputeLoop P s (flushItems2 P s history) else (s, Out.nil, [])

/-- The item list of the history record flushHistory forwards: the items
with internals followed by the step-metric items imputed by the loop. -/
def flushFinalItems (P : Prims) (s : HandlerState) (history : HistoryRecord) : List HistoryItem :=
  flushItems2 P s history ++ (flushLoop P s history).2.2

/-- flushHistory: skip empty records; append the internal _runtime item and
(outside shared mode) the _step item; run the step-metric imputation loop
when a metric handler exists; sample every item; forward the history
record; fold all items into the consolidated summary and the delta map
when a summary handler exists. -/
def flushHistory (P : Prims) (s : HandlerState) (history : HistoryRecord) :
    HandlerState × Out :=
  if history.item = [] then (s, Out.nil)
  else
    let loop := flushLoop P s history
    let finalItems := flushFinalItems P s history
    let s3 := { loop.1 with samplers := some (sampleHistory P loop.1.samplers finalItems) }
    let histRec : Record :=
      { control := none, rtype := RecType.history { step := history.step, item := finalItems } }
    let s4 :=
      match s3.summaryHandler with
      | none => s3
      | some sh =>
        let c := consolidateSummaryItems sh.consolidated
          (finalItems.map (fun it => (it.key, it.valueJson)))
        { s3 with summaryHandler := some { consolidated := c.1, delta := upsertPairs sh.delta c.2 } }
    (s4, ({ Out.nil with errs := flushParseErrs P s }).app (loop.2.1.app (Out.fwd1 histRec)))

/-- ActiveHistory.Flush through the flush callback installed by the
handler: hand (step, items) to flushHistory as a HistoryRecord (the step is
present in client-stepped mode, absent in shared mode), then clear the
accumulator's items. -/
def activeHistoryFlush (P : Prims) (s : HandlerState) : HandlerState × Out :=
  match s.activeHistory with
  | none => (s, Out.nil)
  | some ah =>
    let r := flushHistory P s { step := ah.stepOpt, item := ah.values }
    ({ r.1 with activeHistory := r.1.activeHistory.map (fun ah2 => { ah2 with values := [] }) },
     r.2)

/-- Operations performed on the active-history accumulator by
handlePartialHistorySync, recorded in program order: a Flush call (with
the accumulator's step at that moment), an UpdateStep call, an
UpdateValues call. -/
inductive HistOp where
  | flushOp (stepAt : Int)
  | setStepOp (n : Int)
  | appendOp (items : List HistoryItem)
  deriving DecidableEq

/-- request.GetAction().GetFlush(). -/
def actionFlush (request : PartialHistoryRequest) : Bool :=
  match request.action with
  | some a => a.flush
  | none => false

/-- The first-use initialization of handlePartialHistorySync: create the
accumulator with step = run.GetStartingStep() when it is nil. -/
def ensureActiveSync (s : HandlerState) : HandlerState :=
  if s.activeHistory.isNone then
    { s with activeHistory := some ⟨some ⟨startingStepOf s⟩, []⟩ }
  else s

/-- Leading text of the printer warning for a dropped history record. -/
def stepWarnPre : String :=
  "steps must be monotonically increasing, received history record for a step ("

/-- Middle text of the printer warning, between the two step numbers. -/
def stepWarnMid : String :=
  ") that is less than the current step ("

/-- Trailing text of the printer warning. -/
def stepWarnPost : String :=
  ") this data will be ignored. if you need to log data out of order, " ++
  "please see: https://wandb.me/define-metric"

/-- The warning written to the internal printer when a history record's
step is below the current step (fmt.Sprintf with the two step numbers). -/
def stepWarnMsg (step current : Int) : String :=
  stepWarnPre ++ toString step ++ stepWarnMid ++ toString current ++ stepWarnPost

/-- The structured-log warning emitted for a dropped history record. -/
def stepWarnLog : String := "handlePartialHistorySync: ignoring history record"

/-- The tail of handlePartialHistorySync after the step check: append the
request's items, then, when (step and action are both absent) or the
action's flush flag is set, flush and advance the step by one. -/
def phsTail (P : Prims) (s : HandlerState) (request : PartialHistoryRequest)
    (outAcc : Out) (opsAcc : List HistOp) : HandlerState × Out × List HistOp :=
  let s1 := updateActive s request.item
  let ops1 := opsAcc ++ [HistOp.appendOp request.item]
  if (request.step.isNone && request.action.isNone) || actionFlush request then
    let cur := ahStepNum s1
    let r := activeHistoryFlush P s1
    let nstep := ahStepNum r.1 + 1
    (updateStep r.1 nstep, outAcc.app r.2, ops1 ++ [HistOp.flushOp cur, HistOp.setStepOp nstep])
  else (s1, outAcc, ops1)

/-- handlePartialHistorySync: create the accumulator on first use; a
request step above the current step flushes and jumps to it, a step below
the current step drops the request with a warning and a printer message,
an equal step falls through; then the common tail appends and possibly
flushes. -/
def handlePartialHistorySync (P : Prims) (s0 : HandlerState)
    (request : PartialHistoryRequest) : HandlerState × Out × List HistOp :=
  let s := ensureActiveSync s0
  match request.step with
  | some st =>
    let current := ahStepNum s
    if st.num > current then
      let r := activeHistoryFlush P s
      phsTail P (updateStep r.1 st.num) request r.2
        [HistOp.flushOp current, HistOp.setStepOp st.num]
    else if st.num < current then
      (s, { Out.nil with printed := [stepWarnMsg st.num current], warns := [stepWarnLog] }, [])
    else phsTail P s request Out.nil []
  | none => phsTail P s request Out.nil []

/-- The JSON text fmt.Sprintf'd for the _wandb runtime summary entry. -/
def runtimeJson (n : Int) : String :=
  "\x7b\"runtime\": " ++ toString n ++ "\x7d"

/-- handleSummary: suppressed in sync mode; otherwise append the _wandb
runtime entry to the update, consolidate, and fold the winners into the
delta map. -/
def handleSummary (s : HandlerState) (update : List (String × String)) : HandlerState :=
  if s.settings.xSync then s
  else
    let update2 := update ++ [("_wandb", runtimeJson s.timer.elapsedSec)]
    match s.summaryHandler with
    | none => s
    | some sh =>
      let c := consolidateSummaryItems sh.consolidated update2
      { s with summaryHandler := some { consolidated := c.1, delta := upsertPairs sh.delta c.2 } }

/-- fwdSummary: forward a summary record built from the delta map, then
clear the delta. -/
def fwdSummary (s : HandlerState) : HandlerState × Out :=
  match s.summaryHandler with
  | none => (s, Out.fwd1 { control := none, rtype := RecType.summaryRec [] })
  | some sh =>
    ({ s with summaryHandler := some { sh with delta := [] } },
     Out.fwd1 { control := none, rtype := RecType.summaryRec sh.delta })

/-- The summary file name written under the files directory. -/
def summaryFileName : String := "wandb-summary.json"

/-- writeAndSendSummaryFile: a no-op in sync mode; otherwise write the
consolidated summary file and, when the uploader exists, upload it now. -/
def writeAndSendSummaryFile (s : HandlerState) : Out :=
  if s.settings.xSync then Out.nil
  else
    { Out.nil with
      files := [summaryFileName],
      effects := if s.uploaderPresent then [Effect.uploadNow summaryFileName] else [] }

/-- handleFinal: suppressed in sync mode; otherwise forward a synthesized
Final record with always_send=false. -/
def handleFinal (s : HandlerState) : Out :=
  if s.settings.xSync then Out.nil
  else Out.fwd1 { control := some ⟨false, false, false⟩, rtype := RecType.final }

/-- handleFooter: suppressed in sync mode; otherwise forward a synthesized
Footer record with always_send=false. -/
def handleFooter (s : HandlerState) : Out :=
  if s.settings.xSync then Out.nil
  else Out.fwd1 { control := some ⟨false, false, false⟩, rtype := RecType.footer }

/-- FileTransferStats.SetDone on the handler's collaborator. -/
def setFtsDone (s : HandlerState) : HandlerState :=
  { s with fileTransferStats := s.fileTransferStats.map (fun f => { f with done := true }) }

/-- The FLUSH_SUM defer phase: synthesize an empty summary update, flush
the summary debouncer (forwarding the delta), then write and upload the
summary file. -/
def flushSumPhase (s : HandlerState) : HandlerState × Out :=
  let s1 := handleSummary s []
  let r2 := fwdSummary s1
  (r2.1, r2.2.app (writeAndSendSummaryFile r2.1))

/-- The side effect executed by handleRequestDefer for each numeric state
(proto enum order: BEGIN=0, FLUSH_RUN=1, FLUSH_STATS=2,
FLUSH_PARTIAL_HISTORY=3, FLUSH_TB=4, FLUSH_SUM=5, FLUSH_DEBOUNCER=6,
FLUSH_OUTPUT=7, FLUSH_JOB=8, FLUSH_DIR=9, FLUSH_FP=10, JOIN_FP=11,
FLUSH_FS=12, FLUSH_FINAL=13, END=14); unknown states only log an error. -/
def deferSideEffect (P : Prims) (s : HandlerState) (state : Int) : HandlerState × Out :=
  if state = 0 then (s, Out.nil)
  else if state = 1 then (s, Out.nil)
  else if state = 2 then (s, Out.eff1 Effect.monitorStop)
  else if state = 3 then activeHistoryFlush P s
  else if state = 4 then (s, Out.eff1 Effect.tbClose)
  else if state = 5 then flushSumPhase s
  else if state = 6 then (s, Out.nil)
  else if state = 7 then (s, Out.nil)
  else if state = 8 then (s, Out.nil)
  else if state = 9 then (s, Out.nil)
  else if state = 10 then
    (s, if s.uploaderPresent then Out.eff1 Effect.uploadRemaining else Out.nil)
  else if state = 11 then (s, Out.nil)
  else if state = 12 then (s, Out.nil)
  else if state = 13 then (s, (handleFinal s).app (handleFooter s))
  else if state = 14 then (setFtsDone s, Out.nil)
  else (s, Out.err1 "unknown defer state")

/-- handleRequestDefer: execute the state's side effect, then forward a
cloned copy of the defer record with always_send=true and local=true (the
clone is modelled by the record value being rebuilt with the new control
block). -/
def handleRequestDefer (P : Prims) (s : HandlerState) (record : Record)
    (request : DeferRequest) : HandlerState × Out :=
  let r1 := deferSideEffect P s request.state
  let record2 := withControl record (fun c => { c with alwaysSend := true, localFlag := true })
  (r1.1, r1.2.app (Out.fwd1 record2))

/-- handleExit: pause the timer, read the elapsed runtime, record it into
the summary under _wandb unless in sync mode, and forward the exit record
with always_send=true (and local=true in sync mode). -/
def handleExit (s : HandlerState) (record : Record) : HandlerState × Out :=
  let timer1 := timerPause s.timer
  let runtime := timer1.elapsedSec
  let s1 := { s with timer := timer1 }
  let s2 :=
    if s1.settings.xSync then s1
    else
      match s1.summaryHandler with
      | none => s1
      | some sh =>
        let c := consolidateSummaryItems sh.consolidated [("_wandb", runtimeJson runtime)]
        { s1 with summaryHandler := some { consolidated := c.1, delta := upsertPairs sh.delta c.2 } }
  let record2 := withControl { record with rtype := RecType.exit runtime }
    (fun c =>
      let c1 := { c with alwaysSend := true }
      if s1.settings.xSync then { c1 with localFlag := true } else c1)
  (s2, Out.fwd1 record2)

/-- handleRequestPollExit: respond with the collaborator's stats, counts
and done flag, or with done=true and no stats when the collaborator is
nil. -/
def handleRequestPollExit (s : HandlerState) (record : Record) : Out :=
  let resp : PollExitResponse :=
    match s.fileTransferStats with
    | some f => { pusherStats := some f.filesStats, fileCounts := some f.fileCounts, done := f.done }
    | none => { pusherStats := none, fileCounts := none, done := true }
  Out.res1 { response := Response.pollExit resp, control := record.control }

/-- handleRequestSampledHistory: an empty response when the samplers map is
nil, else one sampled item per tracked key carrying the sampler's values. -/
def handleRequestSampledHistory (s : HandlerState) (record : Record) : Out :=
  let resp : Response :=
    match s.samplers with
    | none => Response.empty
    | some m => Response.sampledHistory (m.map (fun p => { key := p.1, values := p.2.vals }))
  Out.res1 { response := resp, control := record.control }

/-- Number of items with the given key in an item list. -/
def countKey (items : List HistoryItem) (k : String) : Nat :=
  (items.filter (fun it => it.key == k)).length

/-- The history records among the forwarded records of an Out value. -/
def historyRecsOf (out : Out) : List HistoryRecord :=
  out.fwds.filterMap (fun r =>
    match r.rtype with
    | RecType.history hr => some hr
    | _ => none)

/-- Whether a record is a defer-request record. -/
def RecType.isDeferT : RecType → Bool
  | RecType.deferRec _ => true
  | _ => false

/-- Whether a record is a history record. -/
def RecType.isHistT : RecType → Bool
  | RecType.history _ => true
  | _ => false

/-- All records forwarded by an Out value are non-defer records. -/
def noDefer (out : Out) : Prop :=
  ∀ r ∈ out.fwds, r.rtype.isDeferT = false

/-- No record forwarded by an Out value is a history record. -/
def noHist (out : Out) : Prop :=
  ∀ r ∈ out.fwds, r.rtype.isHistT = false

/-- Whether an accumulator-operation trace contains a Flush immediately
followed by an UpdateStep to that flush's step plus one: claim C3's
"a flush of the accumulator followed by an increment of the current step
by exactly 1". -/
def hasFlushInc : List HistOp → Bool
  | HistOp.flushOp k :: HistOp.setStepOp m :: rest =>
    (m == k + 1) || hasFlushInc (HistOp.setStepOp m :: rest)
  | _ :: rest => hasFlushInc rest
  | [] => false

/-- The flush condition exactly as claim C3 states it: (request step absent
and request action absent) or the action's flush flag is true. -/
def c3ClaimCond (request : PartialHistoryRequest) : Bool :=
  (request.step.isNone && request.action.isNone) || actionFlush request

/-- No metric registered in the handler names one of the given keys as its
step metric (used to rule out step-metric imputation of internal keys). -/
def stepMetricAvoids (s : HandlerState) (bad : List String) : Prop :=
  ∀ mh, s.metricHandler = some mh →
    (∀ p ∈ mh.defined, p.2.stepMetric ∉ bad) ∧ (∀ p ∈ mh.globs, p.2.stepMetric ∉ bad)

/-- Two consecutive runs of handlePartialHistorySync on the same request
(claim C9's replay scenario), with the emitted outputs concatenated. -/
def phsTwice (P : Prims) (s : HandlerState) (request : PartialHistoryRequest) :
    HandlerState × Out :=
  let r1 := handlePartialHistorySync P s request
  let r2 := handlePartialHistorySync P r1.1 request
  (r2.1, r1.2.1.app r2.2.1)

/-- Digit-string value of a character list, None on any non-digit. -/
def natDigitsVal (cs : List Char) : Option Nat :=
  cs.foldl
    (fun acc c => acc.bind (fun n => if c.isDigit then some (n * 10 + (c.toNat - 48)) else none))
    (some 0)

/-- Parse of a non-empty all-digit string as a natural number. -/
def natParse (str : String) : Option Nat :=
  match str.data with
  | [] => none
  | _ :: _ => natDigitsVal str.data

/-- Concrete choice of the external primitives for the witnesses and
counterexamples: floats parse from all-digit strings only, the float
formatter is the constant tag "%f" (no claim depends on the rendered
digits), and a glob pattern matches exactly its own text. -/
def testPrims : Prims :=
  { parseFloat64 := fun str => (natParse str).map (fun n => (n : Rat)),
    parseFloat32 := fun str => (natParse str).map (fun n => (n : Rat)),
    fmtFloat := fun _ => "%f",
    globMatch := fun p k => p == k }

/-- A run timer fixture: start time 0s, elapsed reading 7s, running. -/
def baseTimer : Timer := { startTimeSeconds := 0, elapsedSec := 7, running := true }

/-- A handler fixture: non-sync non-shared settings, starting step 0,
empty metric and summary handlers, no samplers, no accumulator. -/
def baseState : HandlerState :=
  { settings := { xSync := false, xShared := false },
    runRecord := some { startingStep := 0 },
    timer := baseTimer,
    activeHistory := none,
    samplers := none,
    metricHandler := some { defined := [], globs := [] },
    summaryHandler := some { consolidated := [], delta := [] },
    fileTransferStats := none,
    uploaderPresent := false }

/-- Fixture for C1: accumulator at step 5. -/
def c1State : HandlerState :=
  { baseState with activeHistory := some ⟨some ⟨5⟩, []⟩ }

/-- Fixture for C1: a flush request for the older step 3. -/
def c1Req : PartialHistoryRequest :=
  { item := [⟨"loss", "9"⟩], step := some ⟨3⟩, action := some ⟨true⟩ }

/-- Fixture for C2: accumulator holding a parseable _timestamp item. -/
def c2State : HandlerState :=
  { baseState with activeHistory := some ⟨some ⟨0⟩, [⟨"_timestamp", "12"⟩]⟩ }

/-- Fixture for C2: a one-item history record at step 0. -/
def c2Rec : HistoryRecord := { step := some ⟨0⟩, item := [⟨"a", "1"⟩] }

/-- Fixture for C3: accumulator at step 0 holding one item. -/
def c3State : HandlerState :=
  { baseState with activeHistory := some ⟨some ⟨0⟩, [⟨"loss", "1"⟩]⟩ }

/-- Fixture for C3: step 1 = current + 1 with an explicit flush=false. -/
def c3Req : PartialHistoryRequest :=
  { item := [], step := some ⟨1⟩, action := some ⟨false⟩ }

/-- Fixture for C4: a defined metric whose step metric is the internal key
_step with step_sync set; the consolidated summary already has a value for
_step; the accumulator holds the record's one user item. -/
def c4State : HandlerState :=
  { baseState with
    metricHandler := some { defined := [("loss", ⟨"loss", "", "_step", some ⟨true⟩⟩)], globs := [] },
    summaryHandler := some { consolidated := [("_step", "7")], delta := [] },
    activeHistory := some ⟨some ⟨3⟩, [⟨"loss", "5"⟩]⟩ }

/-- Fixture for C4: the record being flushed at step 3. -/
def c4Rec : HistoryRecord := { step := some ⟨3⟩, item := [⟨"loss", "5"⟩] }

/-- Fixture for C5: a present file-transfer stats collaborator, not done. -/
def c5State : HandlerState :=
  { baseState with fileTransferStats := some ⟨1, 2, false⟩ }

/-- Fixture for C5: a defer record in state END (14). -/
def c5Rec : Record := { control := none, rtype := RecType.deferRec ⟨14⟩ }

/-- Fixture for C6: two items under key k (one parseable, one not) and one
item under another key. -/
def c6Items : List HistoryItem := [⟨"k", "3"⟩, ⟨"k", "x"⟩, ⟨"j", "2"⟩]

/-- Fixture for C7: a user-supplied item that reuses the internal key
_runtime. -/
def c7Rec : HistoryRecord := { step := some ⟨0⟩, item := [⟨"_runtime", "1"⟩] }

/-- Fixture for the C7 witness: an ordinary one-item record without
reserved keys. -/
def c7GoodRec : HistoryRecord := { step := some ⟨0⟩, item := [⟨"loss", "1"⟩] }

/-- Fixture for C8: sync mode enabled. -/
def c8State : HandlerState :=
  { baseState with settings := { xSync := true, xShared := false } }

/-- Fixture for C8/C10: an exit record without a control block. -/
def c8Rec : Record := { control := none, rtype := RecType.exit 0 }

/-- Fixture for C9: one non-internal item, no step, flush=true. -/
def c9Req : PartialHistoryRequest :=
  { item := [⟨"loss", "5"⟩], step := none, action := some ⟨true⟩ }

/-- Fixture for C9: the same request with an empty item list. -/
def c9ReqEmpty : PartialHistoryRequest :=
  { item := [], step := none, action := some ⟨true⟩ }

/-- Fixture for C10: a file-transfer stats collaborator with distinct
stats payloads. -/
def c10State : HandlerState :=
  { baseState with fileTransferStats := some ⟨3, 4, false⟩ }

/-
Theorems.  Shared helper lemmas come first, then one theorem per claim
(with its witness or counterexample) in claim order.
-/

theorem data_append (a b : String) : (a ++ b).data = a.data ++ b.data := rfl

@[simp] theorem Out.app_fwds (a b : Out) : (a.app b).fwds = a.fwds ++ b.fwds := rfl

@[simp] theorem Out.app_results (a b : Out) : (a.app b).results = a.results ++ b.results := rfl

@[simp] theorem Out.app_printed (a b : Out) : (a.app b).printed = a.printed ++ b.printed := rfl

@[simp] theorem Out.app_warns (a b : Out) : (a.app b).warns = a.warns ++ b.warns := rfl

@[simp] theorem Out.app_errs (a b : Out) : (a.app b).errs = a.errs ++ b.errs := rfl

@[simp] theorem Out.app_effects (a b : Out) : (a.app b).effects = a.effects ++ b.effects := rfl

@[simp] theorem Out.app_files (a b : Out) : (a.app b).files = a.files ++ b.files := rfl

theorem reservoirWeight_eq : reservoirWeight = 0.0005 := by
  unfold reservoirWeight
  rw [Rat.mkRat_eq_div]
  norm_num

/-- C10: for every PollExit request, exactly one PollExitResponse is
produced; with a nil file-transfer stats collaborator it has done=true and
no pusher_stats / file_counts, and with a present collaborator it carries
the collaborator's GetFilesStats, GetFileCounts and IsDone values. -/
theorem c10_pollexit_response (s : HandlerState) (record : Record) :
    (handleRequestPollExit s record).results.length = 1 ∧
    (s.fileTransferStats = none →
      handleRequestPollExit s record =
        Out.res1 { response := Response.pollExit ⟨none, none, true⟩,
                   control := record.control }) ∧
    (∀ f, s.fileTransferStats = some f →
      handleRequestPollExit s record =
        Out.res1 { response := Response.pollExit ⟨some f.filesStats, some f.fileCounts, f.done⟩,
                   control := record.control }) := by
  unfold handleRequestPollExit
  refine ⟨?_, ?_, ?_⟩
  · cases s.fileTransferStats <;> rfl
  · intro h; rw [h]
  · intro f h; rw [h]

/-- C10 witness: a present collaborator with stats 3, counts 4, done=false
is echoed back in the response. -/
theorem c10_pollexit_response_witness :
    c10State.fileTransferStats = some ⟨3, 4, false⟩ ∧
    handleRequestPollExit c10State c8Rec =
      Out.res1 { response := Response.pollExit ⟨some 3, some 4, false⟩, control := none } :=
  ⟨rfl, (c10_pollexit_response c10State c8Rec).2.2 ⟨3, 4, false⟩ rfl⟩

/-- C1: in client-stepped mode, a partial-history request whose step is
below the accumulator's current step leaves the entire handler state
unchanged, forwards nothing, performs no accumulator operation, logs one
warning, and prints exactly the monotonicity message, which contains the
decimal rendering of both the request step and the current step. -/
theorem c1_step_regression_drops (P : Prims) (s : HandlerState)
    (request : PartialHistoryRequest) (ah : ActiveHistory) (st : HistoryStep) (c : Int)
    (hah : s.activeHistory = some ah) (hstep : ah.stepOpt = some ⟨c⟩)
    (hreq : request.step = some st) (hlt : st.num < c) :
    handlePartialHistorySync P s request =
      (s, { Out.nil with printed := [stepWarnMsg st.num c], warns := [stepWarnLog] }, []) ∧
    (toString st.num).data <:+: (stepWarnMsg st.num c).data ∧
    (toString c).data <:+: (stepWarnMsg st.num c).data := by
  have hens : ensureActiveSync s = s := by
    unfold ensureActiveSync
    rw [hah]
    simp
  have hcur : ahStepNum s = c := by
    unfold ahStepNum
    rw [hah]
    simp [hstep]
  refine ⟨?_, ?_, ?_⟩
  · unfold handlePartialHistorySync
    rw [hreq, hens]
    simp only [hcur]
    rw [if_neg (by omega : ¬ st.num > c), if_pos hlt]
  · have e : (stepWarnMsg st.num c).data =
        stepWarnPre.data ++ (toString st.num).data ++
          ((stepWarnMid ++ toString c ++ stepWarnPost).data) := by
      simp [stepWarnMsg, data_append, List.append_assoc]
    rw [e]
    exact List.infix_append _ _ _
  · have e : (stepWarnMsg st.num c).data =
        (stepWarnPre ++ toString st.num ++ stepWarnMid).data ++ (toString c).data ++
          stepWarnPost.data := by
      simp [stepWarnMsg, data_append, List.append_assoc]
    rw [e]
    exact List.infix_append _ _ _

/-- C1 witness: with the accumulator at step 5, a request for step 3 is
dropped with the warning naming 3 and 5. -/
theorem c1_step_regression_drops_witness :
    c1State.activeHistory = some ⟨some ⟨5⟩, []⟩ ∧ (3 : Int) < 5 ∧
    (handlePartialHistorySync testPrims c1State c1Req =
      (c1State, { Out.nil with printed := [stepWarnMsg 3 5], warns := [stepWarnLog] }, []) ∧
     (toString (3 : Int)).data <:+: (stepWarnMsg 3 5).data ∧
     (toString (5 : Int)).data <:+: (stepWarnMsg 3 5).data) :=
  ⟨rfl, by decide,
   c1_step_regression_drops testPrims c1State c1Req ⟨some ⟨5⟩, []⟩ ⟨3⟩ 5 rfl rfl rfl
     (by decide)⟩

theorem getLast_append_single {α : Type} (l : List α) (a : α) :
    (l ++ [a]).getLast? = some a := by
  induction l with
  | nil => rfl
  | cons x xs ih =>
    rw [List.cons_append]
    cases xs with
    | nil => rfl
    | cons y ys =>
      rw [List.cons_append, List.getLast?_cons_cons, ← List.cons_append]
      exact ih

theorem flushHistory_snd (P : Prims) (s : HandlerState) (history : HistoryRecord)
    (hne : history.item ≠ []) :
    (flushHistory P s history).2 =
      ({ Out.nil with errs := flushParseErrs P s }).app
        ((flushLoop P s history).2.1.app
          (Out.fwd1 { control := none,
                      rtype := RecType.history
                        { step := history.step, item := flushFinalItems P s history } })) := by
  unfold flushHistory
  rw [if_neg hne]

theorem flushHistory_fwds (P : Prims) (s : HandlerState) (history : HistoryRecord)
    (hne : history.item ≠ []) :
    (flushHistory P s history).2.fwds =
      (flushLoop P s history).2.1.fwds ++
      [{ control := none,
         rtype := RecType.history
           { step := history.step, item := flushFinalItems P s history } }] := by
  rw [flushHistory_snd P s history hne]
  simp [Out.fwd1, Out.nil]

theorem flushFinalItems_eq (P : Prims) (s : HandlerState) (history : HistoryRecord) :
    flushFinalItems P s history =
      history.item ++ ⟨"_runtime", P.fmtFloat (flushRunTime P s)⟩ ::
        ((if s.settings.xShared then [] else [⟨"_step", toString (stepNumOf history)⟩]) ++
         (flushLoop P s history).2.2) := by
  unfold flushFinalItems flushItems2
  cases hx : s.settings.xShared <;> simp [hx, List.append_assoc]

/-- C2: flushing a history record with a non-empty item list appends,
directly after the record's items, a _runtime item whose value is the
formatted flush run time; the flush run time equals the accumulator's
_timestamp value parsed as a float minus the run start time in seconds
when such an item is present, and equals 0 when no _timestamp item is
present. -/
theorem c2_runtime_item (P : Prims) (s : HandlerState) (history : HistoryRecord)
    (hne : history.item ≠ []) :
    (∃ rest, (flushHistory P s history).2.fwds.getLast? =
      some { control := none,
             rtype := RecType.history
               { step := history.step,
                 item := history.item ++
                   ⟨"_runtime", P.fmtFloat (flushRunTime P s)⟩ :: rest } }) ∧
    (∀ it v, getActiveItem s "_timestamp" = some it →
      P.parseFloat64 it.valueJson = some v →
      flushRunTime P s = v - s.timer.startTimeSeconds) ∧
    (getActiveItem s "_timestamp" = none → flushRunTime P s = 0) := by
  refine ⟨?_, ?_, ?_⟩
  · refine ⟨(if s.settings.xShared then [] else [⟨"_step", toString (stepNumOf history)⟩]) ++
      (flushLoop P s history).2.2, ?_⟩
    rw [flushHistory_fwds P s history hne, getLast_append_single, flushFinalItems_eq]
  · intro it v hit hv
    simp [flushRunTime, hit, hv]
  · intro h
    simp [flushRunTime, h]

/-- C2 witness: with the accumulator holding _timestamp = "12" and start
time 0, the flushed one-item record carries the _runtime item right after
the user item, and the run time equals 12 - 0. -/
theorem c2_runtime_item_witness :
    (∃ rest, (flushHistory testPrims c2State c2Rec).2.fwds.getLast? =
      some { control := none,
             rtype := RecType.history
               { step := c2Rec.step,
                 item := c2Rec.item ++
                   ⟨"_runtime", testPrims.fmtFloat (flushRunTime testPrims c2State)⟩ :: rest } }) ∧
    (∀ it v, getActiveItem c2State "_timestamp" = some it →
      testPrims.parseFloat64 it.valueJson = some v →
      flushRunTime testPrims c2State = v - c2State.timer.startTimeSeconds) ∧
    (getActiveItem c2State "_timestamp" = none → flushRunTime testPrims c2State = 0) :=
  c2_runtime_item testPrims c2State c2Rec (by decide)

theorem lookupA_setA_self {α : Type} (m : List (String × α)) (k : String) (v : α) :
    lookupA (setA m k v) k = some v := by
  induction m with
  | nil => simp [setA, lookupA]
  | cons p rest ih =>
    unfold setA
    by_cases h : p.1 = k
    · rw [if_pos h]
      simp [lookupA]
    · rw [if_neg h]
      simp [lookupA, h, ih]

theorem lookupA_setA_ne {α : Type} (m : List (String × α)) (k k' : String) (v : α)
    (hne : k' ≠ k) : lookupA (setA m k' v) k = lookupA m k := by
  induction m with
  | nil => simp [setA, lookupA, hne]
  | cons p rest ih =>
    unfold setA
    by_cases h : p.1 = k'
    · rw [if_pos h]
      simp [lookupA, hne, h]
    · rw [if_neg h]
      simp [lookupA, ih]

theorem noDefer_nil : noDefer Out.nil := by
  intro r h
  simp [Out.nil] at h

theorem noDefer_eff1 (e : Effect) : noDefer (Out.eff1 e) := by
  intro r h
  simp [Out.eff1] at h

theorem noDefer_err1 (m : String) : noDefer (Out.err1 m) := by
  intro r h
  simp [Out.err1] at h

theorem noDefer_fwd1 (r : Record) (h : r.rtype.isDeferT = false) : noDefer (Out.fwd1 r) := by
  intro r2 h2
  simp [Out.fwd1] at h2
  rw [h2]
  exact h

theorem noDefer_app (a b : Out) (ha : noDefer a) (hb : noDefer b) : noDefer (a.app b) := by
  intro r h
  rw [Out.app_fwds] at h
  rcases List.mem_append.mp h with h1 | h1
  · exact ha r h1
  · exact hb r h1

theorem handleStepMetric_noDefer (s : HandlerState) (key : String) :
    noDefer (handleStepMetric s key).2 := by
  unfold handleStepMetric
  split
  · exact noDefer_nil
  split
  · exact noDefer_nil
  split
  · exact noDefer_nil
  · exact noDefer_fwd1 _ rfl

theorem handleMetric_noDefer (s : HandlerState) (record : Record) (metric : MetricRecord)
    (hrec : record.rtype.isDeferT = false) : noDefer (handleMetric s record metric).2 := by
  unfold handleMetric
  split
  · exact noDefer_nil
  split
  · exact noDefer_fwd1 _ hrec
  split
  · exact noDefer_app _ _ (handleStepMetric_noDefer _ _) (noDefer_fwd1 _ hrec)
  · exact noDefer_err1 _

theorem matchHistoryItemMetric_noDefer (P : Prims) (s : HandlerState) (item : HistoryItem) :
    noDefer (matchHistoryItemMetric P s item).2.1 := by
  unfold matchHistoryItemMetric
  split
  · exact noDefer_nil
  split
  · exact noDefer_nil
  split
  · exact noDefer_nil
  split
  · exact noDefer_nil
  · exact handleMetric_noDefer _ _ _ rfl

theorem imputeStepMetric_noDefer (P : Prims) (s : HandlerState) (item : HistoryItem) :
    noDefer (imputeStepMetric P s item).2.1 := by
  simp only [imputeStepMetric]
  split_ifs
  · exact matchHistoryItemMetric_noDefer P s item
  · exact matchHistoryItemMetric_noDefer P s item
  · cases h : lookupA (consolidatedOf (matchHistoryItemMetric P s item).1)
        (stepMetricOf (matchHistoryItemMetric P s item).2.2) with
    | none =>
      simp only [h]
      exact matchHistoryItemMetric_noDefer P s item
    | some v =>
      simp only [h]
      exact matchHistoryItemMetric_noDefer P s item

theorem imputeLoop_noDefer (P : Prims) (items : List HistoryItem) :
    ∀ s, noDefer (imputeLoop P s items).2.1 := by
  induction items with
  | nil =>
    intro s
    exact noDefer_nil
  | cons item rest ih =>
    intro s
    exact noDefer_app _ _ (imputeStepMetric_noDefer P s item) (ih _)

theorem flushLoop_noDefer (P : Prims) (s : HandlerState) (history : HistoryRecord) :
    noDefer (flushLoop P s history).2.1 := by
  unfold flushLoop
  split
  · exact imputeLoop_noDefer P _ s
  · exact noDefer_nil

theorem flushHistory_noDefer (P : Prims) (s : HandlerState) (history : HistoryRecord) :
    noDefer (flushHistory P s history).2 := by
  by_cases hne : history.item = []
  · unfold flushHistory
    rw [if_pos hne]
    exact noDefer_nil
  · rw [flushHistory_snd P s history hne]
    refine noDefer_app _ _ ?_ (noDefer_app _ _ (flushLoop_noDefer P s history)
      (noDefer_fwd1 _ rfl))
    intro r h
    simp [Out.nil] at h

theorem activeHistoryFlush_noDefer (P : Prims) (s : HandlerState) :
    noDefer (activeHistoryFlush P s).2 := by
  unfold activeHistoryFlush
  split
  · exact noDefer_nil
  · exact flushHistory_noDefer P s _

theorem fwdSummary_noDefer (s : HandlerState) : noDefer (fwdSummary s).2 := by
  unfold fwdSummary
  split
  · exact noDefer_fwd1 _ rfl
  · exact noDefer_fwd1 _ rfl

theorem writeAndSendSummaryFile_noDefer (s : HandlerState) :
    noDefer (writeAndSendSummaryFile s) := by
  unfold writeAndSendSummaryFile
  split
  · exact noDefer_nil
  · intro r h
    simp [Out.nil] at h

theorem flushSumPhase_noDefer (s : HandlerState) : noDefer (flushSumPhase s).2 := by
  unfold flushSumPhase
  exact noDefer_app _ _ (fwdSummary_noDefer _) (writeAndSendSummaryFile_noDefer _)

theorem handleFinal_noDefer (s : HandlerState) : noDefer (handleFinal s) := by
  unfold handleFinal
  split
  · exact noDefer_nil
  · exact noDefer_fwd1 _ rfl

theorem handleFooter_noDefer (s : HandlerState) : noDefer (handleFooter s) := by
  unfold handleFooter
  split
  · exact noDefer_nil
  · exact noDefer_fwd1 _ rfl

theorem deferSideEffect_noDefer (P : Prims) (s : HandlerState) (state : Int) :
    noDefer (deferSideEffect P s state).2 := by
  unfold deferSideEffect
  by_cases h0 : state = 0
  · rw [if_pos h0]; exact noDefer_nil
  rw [if_neg h0]
  by_cases h1 : state = 1
  · rw [if_pos h1]; exact noDefer_nil
  rw [if_neg h1]
  by_cases h2 : state = 2
  · rw [if_pos h2]; exact noDefer_eff1 _
  rw [if_neg h2]
  by_cases h3 : state = 3
  · rw [if_pos h3]; exact activeHistoryFlush_noDefer P s
  rw [if_neg h3]
  by_cases h4 : state = 4
  · rw [if_pos h4]; exact noDefer_eff1 _
  rw [if_neg h4]
  by_cases h5 : state = 5
  · rw [if_pos h5]; exact flushSumPhase_noDefer s
  rw [if_neg h5]
  by_cases h6 : state = 6
  · rw [if_pos h6]; exact noDefer_nil
  rw [if_neg h6]
  by_cases h7 : state = 7
  · rw [if_pos h7]; exact noDefer_nil
  rw [if_neg h7]
  by_cases h8 : state = 8
  · rw [if_pos h8]; exact noDefer_nil
  rw [if_neg h8]
  by_cases h9 : state = 9
  · rw [if_pos h9]; exact noDefer_nil
  rw [if_neg h9]
  by_cases h10 : state = 10
  · rw [if_pos h10]
    by_cases hup : s.uploaderPresent = true
    · rw [if_pos hup]; exact noDefer_eff1 _
    · rw [if_neg hup]; exact noDefer_nil
  rw [if_neg h10]
  by_cases h11 : state = 11
  · rw [if_pos h11]; exact noDefer_nil
  rw [if_neg h11]
  by_cases h12 : state = 12
  · rw [if_pos h12]; exact noDefer_nil
  rw [if_neg h12]
  by_cases h13 : state = 13
  · rw [if_pos h13]; exact noDefer_app _ _ (handleFinal_noDefer s) (handleFooter_noDefer s)
  rw [if_neg h13]
  by_cases h14 : state = 14
  · rw [if_pos h14]; exact noDefer_nil
  rw [if_neg h14]
  exact noDefer_err1 _

theorem filter_defer_nil (l : List Record) (h : ∀ r ∈ l, r.rtype.isDeferT = false) :
    l.filter (fun r => r.rtype.isDeferT) = [] := by
  induction l with
  | nil => rfl
  | cons r rest ih =>
    have hr := h r (by simp)
    rw [List.filter_cons]
    simp only [hr, Bool.false_eq_true, if_false]
    exact ih (fun r2 h2 => h r2 (List.mem_cons_of_mem _ h2))

/-- C5: for every defer request, including one with an unknown numeric
state, handleRequestDefer forwards exactly one defer record, as the last
forwarded record (so after everything emitted by the state's side effect),
and that record carries always_send=true and local=true on top of the
original control block; in state END (14) the resulting state's
file-transfer stats collaborator has been marked done before the record is
forwarded; an unknown state leaves the handler state unchanged and its
side effect only logs an error. -/
theorem c5_defer_forwards_once (P : Prims) (s : HandlerState) (record : Record)
    (request : DeferRequest) (hrec : record.rtype = RecType.deferRec request) :
    (handleRequestDefer P s record request).2.fwds.getLast? =
      some (withControl record (fun c => { c with alwaysSend := true, localFlag := true })) ∧
    (withControl record (fun c => { c with alwaysSend := true, localFlag := true })).control =
      some { record.control.getD ⟨false, false, false⟩ with
             alwaysSend := true, localFlag := true } ∧
    (handleRequestDefer P s record request).2.fwds.filter (fun r => r.rtype.isDeferT) =
      [withControl record (fun c => { c with alwaysSend := true, localFlag := true })] ∧
    (request.state = 14 →
      (handleRequestDefer P s record request).1.fileTransferStats =
        s.fileTransferStats.map (fun f => { f with done := true })) ∧
    (¬ (0 ≤ request.state ∧ request.state ≤ 14) →
      (handleRequestDefer P s record request).1 = s ∧
      (deferSideEffect P s request.state).2 = Out.err1 "unknown defer state") := by
  have hfwds : (handleRequestDefer P s record request).2.fwds =
      (deferSideEffect P s request.state).2.fwds ++
      [withControl record (fun c => { c with alwaysSend := true, localFlag := true })] := rfl
  refine ⟨?_, rfl, ?_, ?_, ?_⟩
  · rw [hfwds]
    exact getLast_append_single _ _
  · rw [hfwds, List.filter_append]
    rw [filter_defer_nil _ (deferSideEffect_noDefer P s request.state)]
    simp [withControl, hrec, RecType.isDeferT]
  · intro h14
    have hfst : (handleRequestDefer P s record request).1 =
        (deferSideEffect P s request.state).1 := rfl
    rw [hfst, h14]
    unfold deferSideEffect
    norm_num
    rfl
  · intro h
    have hse : deferSideEffect P s request.state = (s, Out.err1 "unknown defer state") := by
      unfold deferSideEffect
      rw [if_neg (by omega : ¬ request.state = 0), if_neg (by omega : ¬ request.state = 1),
        if_neg (by omega : ¬ request.state = 2), if_neg (by omega : ¬ request.state = 3),
        if_neg (by omega : ¬ request.state = 4), if_neg (by omega : ¬ request.state = 5),
        if_neg (by omega : ¬ request.state = 6), if_neg (by omega : ¬ request.state = 7),
        if_neg (by omega : ¬ request.state = 8), if_neg (by omega : ¬ request.state = 9),
        if_neg (by omega : ¬ request.state = 10), if_neg (by omega : ¬ request.state = 11),
        if_neg (by omega : ¬ request.state = 12), if_neg (by omega : ¬ request.state = 13),
        if_neg (by omega : ¬ request.state = 14)]
    constructor
    · have hfst : (handleRequestDefer P s record request).1 =
          (deferSideEffect P s request.state).1 := rfl
      rw [hfst, hse]
    · rw [hse]

/-- C5 witness: a Defer END request against a not-done collaborator marks
it done and forwards the defer record with always_send and local set. -/
theorem c5_defer_forwards_once_witness :
    c5Rec.rtype = RecType.deferRec ⟨14⟩ ∧
    (handleRequestDefer testPrims c5State c5Rec ⟨14⟩).1.fileTransferStats =
      some ⟨1, 2, true⟩ ∧
    (handleRequestDefer testPrims c5State c5Rec ⟨14⟩).2.fwds.getLast? =
      some (withControl c5Rec (fun c => { c with alwaysSend := true, localFlag := true })) := by
  refine ⟨rfl, ?_, (c5_defer_forwards_once testPrims c5State c5Rec ⟨14⟩ rfl).1⟩
  have h := (c5_defer_forwards_once testPrims c5State c5Rec ⟨14⟩ rfl).2.2.2.1 rfl
  rw [h]
  rfl

/-- C8 counterexample: with sync mode enabled, handling an Exit record
records nothing into the summary: the consolidated summary stays empty and
in particular has no _wandb entry, although the claim asserts
unconditionally that the elapsed runtime is recorded under _wandb. -/
theorem c8_counterexample :
    c8State.settings.xSync = true ∧
    (handleExit c8State c8Rec).1.summaryHandler = some { consolidated := [], delta := [] } ∧
    lookupA (consolidatedOf (handleExit c8State c8Rec).1) "_wandb" = none := by
  refine ⟨rfl, ?_, ?_⟩ <;> decide

/-- C8 (amended): handling an Exit record always pauses the run timer;
it records the elapsed runtime into the summary under _wandb when sync
mode is disabled (and only then); it forwards the exit record carrying the
elapsed runtime with always_send=true, additionally with local=true in
sync mode; and with sync mode enabled no Final or Footer record is ever
emitted and the summary file is never written. -/
theorem c8_exit_amended (s : HandlerState) (record : Record) :
    (handleExit s record).1.timer.running = false ∧
    (∀ sh, s.settings.xSync = false → s.summaryHandler = some sh →
      lookupA (consolidatedOf (handleExit s record).1) "_wandb" =
        some (runtimeJson s.timer.elapsedSec)) ∧
    (∃ c, (handleExit s record).2 =
        Out.fwd1 { control := some c, rtype := RecType.exit s.timer.elapsedSec } ∧
      c.alwaysSend = true ∧ (s.settings.xSync = true → c.localFlag = true)) ∧
    (s.settings.xSync = true →
      handleFinal s = Out.nil ∧ handleFooter s = Out.nil ∧
      writeAndSendSummaryFile s = Out.nil) := by
  refine ⟨?_, ?_, ?_, ?_⟩
  · simp only [handleExit]
    cases hx : s.settings.xSync with
    | false =>
      cases hsh : s.summaryHandler with
      | none => simp [hx, hsh, timerPause]
      | some sh => simp [hx, hsh, timerPause]
    | true => simp [hx, timerPause]
  · intro sh hx hsh
    simp only [handleExit]
    simp [hx, hsh, consolidatedOf, consolidateSummaryItems, upsertPairs, timerPause]
    exact lookupA_setA_self _ _ _
  · cases hx : s.settings.xSync with
    | true =>
      refine ⟨{ record.control.getD ⟨false, false, false⟩ with
                alwaysSend := true, localFlag := true }, ?_, rfl, fun _ => rfl⟩
      simp [handleExit, withControl, hx, timerPause]
    | false =>
      refine ⟨{ record.control.getD ⟨false, false, false⟩ with alwaysSend := true }, ?_, rfl, ?_⟩
      · simp [handleExit, withControl, hx, timerPause]
      · intro h
        cases h
  · intro hx
    refine ⟨?_, ?_, ?_⟩ <;> simp [handleFinal, handleFooter, writeAndSendSummaryFile, hx]

/-- C8 amended witness: with sync mode disabled and an empty summary, the
runtime lands in the consolidated summary under _wandb. -/
theorem c8_exit_amended_witness :
    baseState.settings.xSync = false ∧ baseState.summaryHandler = some ⟨[], []⟩ ∧
    lookupA (consolidatedOf (handleExit baseState c8Rec).1) "_wandb" =
      some (runtimeJson baseState.timer.elapsedSec) :=
  ⟨rfl, rfl, (c8_exit_amended baseState c8Rec).2.1 ⟨[], []⟩ rfl rfl⟩

theorem lookupA_none_keys {α : Type} (m : List (String × α)) (k : String)
    (h : lookupA m k = none) : ∀ p ∈ m, p.1 ≠ k := by
  induction m with
  | nil =>
    intro p hp
    cases hp
  | cons q rest ih =>
    intro p hp
    unfold lookupA at h
    by_cases hq : q.1 = k
    · rw [if_pos hq] at h
      cases h
    · rw [if_neg hq] at h
      rcases List.mem_cons.mp hp with rfl | hp2
      · exact hq
      · exact ih h p hp2

theorem sampleExpect_nil (o : Option Reservoir) : sampleExpect o [] = o := by
  cases o <;> simp [sampleExpect]

theorem sampleExpect_append (o : Option Reservoir) (a b : List Rat) :
    sampleExpect (o) (a ++ b) = sampleExpect (sampleExpect o a) b := by
  cases o with
  | some r => simp [sampleExpect]
  | none =>
    by_cases ha : a = []
    · subst ha
      rw [List.nil_append, sampleExpect_nil]
    · have hab : a ++ b ≠ [] := by simp [ha]
      simp [sampleExpect, ha, hab]

theorem keyParsedVals_cons (P : Prims) (it : HistoryItem) (rest : List HistoryItem)
    (k : String) :
    keyParsedVals P (it :: rest) k =
      (if it.key = k then (P.parseFloat32 it.valueJson).toList else []) ++
      keyParsedVals P rest k := by
  unfold keyParsedVals
  rw [List.filterMap_cons]
  by_cases hk : it.key = k
  · rw [if_pos hk, if_pos hk]
    cases hp : P.parseFloat32 it.valueJson <;> simp [hp]
  · rw [if_neg hk, if_neg hk]
    simp

theorem sampleAdd_lookup (P : Prims) (m : List (String × Reservoir)) (it : HistoryItem)
    (k : String) :
    lookupA (sampleAdd P m it) k =
      sampleExpect (lookupA m k)
        (if it.key = k then (P.parseFloat32 it.valueJson).toList else []) := by
  unfold sampleAdd
  cases hp : P.parseFloat32 it.valueJson with
  | none =>
    by_cases hk : it.key = k
    · rw [if_pos hk]
      simp [Option.toList, sampleExpect_nil]
    · rw [if_neg hk]
      simp [Option.toList, sampleExpect_nil]
  | some v =>
    by_cases hk : it.key = k
    · rw [if_pos hk, hk]
      cases hl : lookupA m k with
      | none => simp [hl, lookupA_setA_self, sampleExpect]
      | some r => simp [hl, lookupA_setA_self, sampleExpect]
    · rw [if_neg hk, lookupA_setA_ne m k it.key _ hk, sampleExpect_nil]

theorem sampleFold_lookup (P : Prims) (items : List HistoryItem) :
    ∀ (m : List (String × Reservoir)) (k : String),
    lookupA (items.foldl (sampleAdd P) m) k =
      sampleExpect (lookupA m k) (keyParsedVals P items k) := by
  induction items with
  | nil =>
    intro m k
    rw [List.foldl_nil, show keyParsedVals P [] k = [] from rfl, sampleExpect_nil]
  | cons it rest ih =>
    intro m k
    rw [List.foldl_cons, ih, sampleAdd_lookup, keyParsedVals_cons, sampleExpect_append]

/-- C6: after sampleHistory processes a record's items, each key's sampler
holds exactly the prior values followed by the values of that key's items
whose value_json parses as a 32-bit float (an item's value is admitted iff
it parses); a key with no prior entry and no parseable value has no entry
in the map; a freshly created entry has capacity 48 and weight 0.0005 and
exactly the parsed values; and a SampledHistory request reports one item
per map entry, hence nothing for a key that has no entry. -/
theorem c6_sampler_admission (P : Prims) (samplers : Option (List (String × Reservoir)))
    (items : List HistoryItem) (k : String) :
    (lookupA (sampleHistory P samplers items) k =
      sampleExpect (lookupA (samplers.getD []) k) (keyParsedVals P items k)) ∧
    (lookupA (samplers.getD []) k = none → keyParsedVals P items k = [] →
      lookupA (sampleHistory P samplers items) k = none) ∧
    (∀ r, lookupA (samplers.getD []) k = none →
      lookupA (sampleHistory P samplers items) k = some r →
      r.cap = 48 ∧ r.weight = 0.0005 ∧ r.vals = keyParsedVals P items k) ∧
    (∀ (s : HandlerState) (rec : Record) (m : List (String × Reservoir)),
      s.samplers = some m →
      handleRequestSampledHistory s rec =
        Out.res1 { response := Response.sampledHistory
                     (m.map (fun p => { key := p.1, values := p.2.vals })),
                   control := rec.control }) ∧
    (∀ m : List (String × Reservoir), lookupA m k = none →
      ∀ si ∈ m.map (fun p => ({ key := p.1, values := p.2.vals } : SampledItem)),
        si.key ≠ k) := by
  have hmain : lookupA (sampleHistory P samplers items) k =
      sampleExpect (lookupA (samplers.getD []) k) (keyParsedVals P items k) :=
    sampleFold_lookup P items _ k
  refine ⟨hmain, ?_, ?_, ?_, ?_⟩
  · intro h1 h2
    rw [hmain, h1, h2, sampleExpect_nil]
  · intro r h1 h2
    have hm2 := hmain
    rw [h1] at hm2
    rw [hm2] at h2
    simp only [sampleExpect] at h2
    by_cases hv : keyParsedVals P items k = []
    · rw [if_pos hv] at h2
      cases h2
    · rw [if_neg hv] at h2
      have he := Option.some.inj h2
      subst he
      exact ⟨rfl, reservoirWeight_eq, rfl⟩
  · intro s rec m hsm
    unfold handleRequestSampledHistory
    rw [hsm]
  · intro m hl si hsi
    obtain ⟨p, hp, rfl⟩ := List.mem_map.mp hsi
    exact lookupA_none_keys m k hl p hp

/-- C6 witness: from an absent map, the items under key k with one
parseable value create exactly one sampler entry with capacity 48 and
weight 0.0005 holding that value. -/
theorem c6_sampler_admission_witness :
    lookupA ((none : Option (List (String × Reservoir))).getD []) "k" = none ∧
    lookupA (sampleHistory testPrims none c6Items) "k" =
      some ⟨reservoirCap, reservoirWeight, keyParsedVals testPrims c6Items "k"⟩ ∧
    ((⟨reservoirCap, reservoirWeight, keyParsedVals testPrims c6Items "k"⟩ : Reservoir).cap = 48 ∧
     (⟨reservoirCap, reservoirWeight, keyParsedVals testPrims c6Items "k"⟩ : Reservoir).weight =
       0.0005 ∧
     (⟨reservoirCap, reservoirWeight, keyParsedVals testPrims c6Items "k"⟩ : Reservoir).vals =
       keyParsedVals testPrims c6Items "k") := by
  have hl : lookupA (sampleHistory testPrims none c6Items) "k" =
      some ⟨reservoirCap, reservoirWeight, keyParsedVals testPrims c6Items "k"⟩ := by
    rw [(c6_sampler_admission testPrims none c6Items "k").1]
    have hne : keyParsedVals testPrims c6Items "k" ≠ [] := by decide
    simp [sampleExpect, hne, lookupA]
  exact ⟨rfl, hl, (c6_sampler_admission testPrims none c6Items "k").2.2.1 _ rfl hl⟩

theorem handleStepMetric_pres (s : HandlerState) (key : String) :
    (handleStepMetric s key).1.activeHistory = s.activeHistory ∧
    (handleStepMetric s key).1.summaryHandler = s.summaryHandler := by
  unfold handleStepMetric
  split
  · exact ⟨rfl, rfl⟩
  split
  · exact ⟨rfl, rfl⟩
  split
  · exact ⟨rfl, rfl⟩
  · exact ⟨rfl, rfl⟩

theorem handleMetric_pres (s : HandlerState) (record : Record) (metric : MetricRecord) :
    (handleMetric s record metric).1.activeHistory = s.activeHistory ∧
    (handleMetric s record metric).1.summaryHandler = s.summaryHandler := by
  unfold handleMetric
  split
  · exact ⟨rfl, rfl⟩
  split
  · exact ⟨rfl, rfl⟩
  split
  · exact ⟨(handleStepMetric_pres _ _).1, (handleStepMetric_pres _ _).2⟩
  · exact ⟨rfl, rfl⟩

theorem matchHistoryItemMetric_pres (P : Prims) (s : HandlerState) (item : HistoryItem) :
    (matchHistoryItemMetric P s item).1.activeHistory = s.activeHistory ∧
    (matchHistoryItemMetric P s item).1.summaryHandler = s.summaryHandler := by
  unfold matchHistoryItemMetric
  split
  · exact ⟨rfl, rfl⟩
  split
  · exact ⟨rfl, rfl⟩
  split
  · exact ⟨rfl, rfl⟩
  split
  · exact ⟨rfl, rfl⟩
  · exact ⟨(handleMetric_pres _ _ _).1, (handleMetric_pres _ _ _).2⟩

theorem getActiveItem_congr (s1 s2 : HandlerState) (k : String)
    (h : s1.activeHistory = s2.activeHistory) : getActiveItem s1 k = getActiveItem s2 k := by
  unfold getActiveItem
  rw [h]

theorem consolidatedOf_congr (s1 s2 : HandlerState)
    (h : s1.summaryHandler = s2.summaryHandler) : consolidatedOf s1 = consolidatedOf s2 := by
  unfold consolidatedOf
  rw [h]

theorem imputeStepMetric_snd (P : Prims) (s : HandlerState) (item : HistoryItem) :
    (imputeStepMetric P s item).2.2 =
      match (matchHistoryItemMetric P s item).2.2 with
      | none => none
      | some m =>
        if stepSyncOf (some m) && !(m.stepMetric = "") then
          if (getActiveItem (matchHistoryItemMetric P s item).1 m.stepMetric).isSome then none
          else
            match lookupA (consolidatedOf (matchHistoryItemMetric P s item).1) m.stepMetric with
            | some value => some ⟨m.stepMetric, value⟩
            | none => none
        else none := by
  simp only [imputeStepMetric]
  cases hm : (matchHistoryItemMetric P s item).2.2 with
  | none => simp [stepSyncOf, stepMetricOf]
  | some m =>
    simp only [stepMetricOf]
    cases hc : stepSyncOf (some m) && !(decide (m.stepMetric = "")) with
    | false => simp [hc]
    | true =>
      simp only [hc, Bool.not_true, Bool.false_eq_true, if_false, if_true]
      cases ha : (getActiveItem (matchHistoryItemMetric P s item).1 m.stepMetric).isSome with
      | true => simp [ha]
      | false =>
        simp only [ha, Bool.false_eq_true, if_false]
        cases hl : lookupA (consolidatedOf (matchHistoryItemMetric P s item).1) m.stepMetric with
        | none => simp [hl]
        | some value => simp [hl]

/-- C4 counterexample: with a defined metric loss whose step metric is the
internal key _step (step_sync=true) and a consolidated-summary value for
_step, flushing a record already containing the internal _step item still
synthesizes a second _step item: the record being flushed holds _step once
before imputation and twice after, although the claim requires that no
item be synthesized when the step-metric key is already present in the
record being flushed. -/
theorem c4_counterexample :
    countKey c4Rec.item "_step" = 0 ∧
    countKey (flushItems2 testPrims c4State c4Rec) "_step" = 1 ∧
    (flushLoop testPrims c4State c4Rec).2.2 = [⟨"_step", "7"⟩] ∧
    countKey (flushFinalItems testPrims c4State c4Rec) "_step" = 2 := by
  refine ⟨?_, ?_, ?_, ?_⟩ <;> decide

/-- C4 (amended): during a flush, each item resolves to a metric through
the defined-metric map first and the glob metrics second (internal keys
resolve to none), and a step-metric item is synthesized for it if and only
if the resolved metric has step_sync=true, a non-empty step metric, the
step-metric key is absent from the active-history accumulator (not from
the record being flushed, which additionally holds the internal items),
and the consolidated summary holds a value for that key; the synthesized
item is exactly (step_metric, summary value). -/
theorem c4_impute_amended (P : Prims) (s : HandlerState) (item : HistoryItem)
    (mh : MetricHandlerState) (hmh : s.metricHandler = some mh) :
    ((matchHistoryItemMetric P s item).2.2 =
      if hasUnderscoreStart item.key then none
      else
        match lookupA mh.defined item.key with
        | some m => some m
        | none => createMatchingGlobMetric P mh.globs item.key) ∧
    (∀ hi, (imputeStepMetric P s item).2.2 = some hi ↔
      ∃ m, (matchHistoryItemMetric P s item).2.2 = some m ∧
        stepSyncOf (some m) = true ∧ m.stepMetric ≠ "" ∧
        getActiveItem s m.stepMetric = none ∧
        lookupA (consolidatedOf s) m.stepMetric = some hi.valueJson ∧
        hi.key = m.stepMetric) := by
  have hpres := matchHistoryItemMetric_pres P s item
  constructor
  · unfold matchHistoryItemMetric
    by_cases hu : hasUnderscoreStart item.key = true
    · simp [hu]
    · simp only [hu, Bool.false_eq_true, if_false, hmh]
      cases hd : lookupA mh.defined item.key with
      | some m => simp [hd]
      | none =>
        simp only [hd]
        cases hc : createMatchingGlobMetric P mh.globs item.key with
        | none => simp [hc]
        | some metric => simp [hc]
  · intro hi
    rw [imputeStepMetric_snd]
    cases hm : (matchHistoryItemMetric P s item).2.2 with
    | none => simp [hm]
    | some m =>
      simp only [hm]
      rw [getActiveItem_congr _ s _ hpres.1, consolidatedOf_congr _ s hpres.2]
      by_cases hsy : stepSyncOf (some m) = true
      case neg =>
        have hcond : (stepSyncOf (some m) && !decide (m.stepMetric = "")) = false := by
          cases h : stepSyncOf (some m)
          · rfl
          · exact absurd h hsy
        rw [hcond, if_neg Bool.false_ne_true]
        constructor
        · intro h
          cases h
        · rintro ⟨m', hm', hs', _⟩
          obtain rfl := Option.some.inj hm'
          exact absurd hs' hsy
      case pos =>
        by_cases hne : m.stepMetric = ""
        · have hcond : (stepSyncOf (some m) && !decide (m.stepMetric = "")) = false := by
            simp [hne]
          rw [hcond, if_neg Bool.false_ne_true]
          constructor
          · intro h
            cases h
          · rintro ⟨m', hm', _, hne', _⟩
            obtain rfl := Option.some.inj hm'
            exact absurd hne hne'
        · have hcond : (stepSyncOf (some m) && !decide (m.stepMetric = "")) = true := by
            simp [hsy, hne]
          rw [hcond, if_pos rfl]
          cases ha : getActiveItem s m.stepMetric with
          | some x =>
            simp only [ha, Option.isSome_some]
            rw [if_pos trivial]
            constructor
            · intro h
              cases h
            · rintro ⟨m', hm', _, _, ha', _⟩
              obtain rfl := Option.some.inj hm'
              rw [ha] at ha'
              cases ha'
          | none =>
            simp only [ha, Option.isSome_none]
            rw [if_neg Bool.false_ne_true]
            cases hl : lookupA (consolidatedOf s) m.stepMetric with
            | none =>
              simp only [hl]
              constructor
              · intro h
                cases h
              · rintro ⟨m', hm', _, _, _, hl', _⟩
                obtain rfl := Option.some.inj hm'
                rw [hl] at hl'
                cases hl'
            | some value =>
              simp only [hl]
              constructor
              · intro h
                have he := Option.some.inj h
                refine ⟨m, rfl, hsy, hne, ha, ?_, ?_⟩
                · rw [← he]
                  exact hl
                · rw [← he]
              · rintro ⟨m', hm', _, _, _, hl', hk⟩
                obtain rfl := Option.some.inj hm'
                rw [hl] at hl'
                have hv := Option.some.inj hl'
                have hhi : hi = ⟨m.stepMetric, value⟩ := by
                  cases hi
                  simp_all
                rw [hhi]

/-- C4 amended witness: the loss item of the counterexample state meets
all amended conditions (the accumulator lacks _step, the summary holds 7),
so exactly the item (_step, 7) is synthesized. -/
theorem c4_impute_amended_witness :
    c4State.metricHandler =
      some { defined := [("loss", ⟨"loss", "", "_step", some ⟨true⟩⟩)], globs := [] } ∧
    (imputeStepMetric testPrims c4State ⟨"loss", "5"⟩).2.2 = some ⟨"_step", "7"⟩ := by
  refine ⟨rfl, ?_⟩
  have h := (c4_impute_amended testPrims c4State ⟨"loss", "5"⟩ _ rfl).2 ⟨"_step", "7"⟩
  exact h.mpr ⟨⟨"loss", "", "_step", some ⟨true⟩⟩, by decide, by decide, by decide, by decide,
    by decide, rfl⟩

theorem updateActive_shape (s : HandlerState) (items : List HistoryItem) :
    (updateActive s items).activeHistory.map (fun ah => ah.stepOpt) =
      s.activeHistory.map (fun ah => ah.stepOpt) := by
  unfold updateActive
  cases s.activeHistory <;> rfl

theorem ahStepNum_congr (s1 s2 : HandlerState)
    (h : s1.activeHistory.map (fun ah => ah.stepOpt) =
      s2.activeHistory.map (fun ah => ah.stepOpt)) :
    ahStepNum s1 = ahStepNum s2 := by
  unfold ahStepNum
  cases h1 : s1.activeHistory with
  | none =>
    cases h2 : s2.activeHistory with
    | none => rfl
    | some ah2 =>
      rw [h1, h2] at h
      cases h
  | some ah1 =>
    cases h2 : s2.activeHistory with
    | none =>
      rw [h1, h2] at h
      cases h
    | some ah2 =>
      rw [h1, h2] at h
      simp only [Option.map_some'] at h
      have := Option.some.inj h
      simp [this]

theorem imputeStepMetric_shape (P : Prims) (s : HandlerState) (item : HistoryItem) :
    (imputeStepMetric P s item).1.activeHistory.map (fun ah => ah.stepOpt) =
      s.activeHistory.map (fun ah => ah.stepOpt) := by
  have hpres := (matchHistoryItemMetric_pres P s item).1
  simp only [imputeStepMetric]
  split_ifs
  · rw [hpres]
  · rw [hpres]
  · cases h : lookupA (consolidatedOf (matchHistoryItemMetric P s item).1)
        (stepMetricOf (matchHistoryItemMetric P s item).2.2) with
    | none =>
      simp only [h]
      rw [hpres]
    | some v =>
      simp only [h]
      rw [updateActive_shape, hpres]

theorem imputeLoop_shape (P : Prims) (items : List HistoryItem) :
    ∀ s : HandlerState,
    (imputeLoop P s items).1.activeHistory.map (fun ah => ah.stepOpt) =
      s.activeHistory.map (fun ah => ah.stepOpt) := by
  induction items with
  | nil =>
    intro s
    rfl
  | cons item rest ih =>
    intro s
    rw [show (imputeLoop P s (item :: rest)).1 =
      (imputeLoop P (imputeStepMetric P s item).1 rest).1 from rfl]
    rw [ih, imputeStepMetric_shape]

theorem flushHistory_fst_ah (P : Prims) (s : HandlerState) (history : HistoryRecord) :
    (flushHistory P s history).1.activeHistory =
      if history.item = [] then s.activeHistory
      else (flushLoop P s history).1.activeHistory := by
  simp only [flushHistory]
  by_cases hne : history.item = []
  · rw [if_pos hne, if_pos hne]
  · rw [if_neg hne, if_neg hne]
    split <;> rfl

theorem flushLoop_shape (P : Prims) (s : HandlerState) (history : HistoryRecord) :
    (flushLoop P s history).1.activeHistory.map (fun ah => ah.stepOpt) =
      s.activeHistory.map (fun ah => ah.stepOpt) := by
  unfold flushLoop
  split
  · exact imputeLoop_shape P _ s
  · rfl

theorem flushHistory_shape (P : Prims) (s : HandlerState) (history : HistoryRecord) :
    (flushHistory P s history).1.activeHistory.map (fun ah => ah.stepOpt) =
      s.activeHistory.map (fun ah => ah.stepOpt) := by
  rw [flushHistory_fst_ah]
  by_cases hne : history.item = []
  · rw [if_pos hne]
  · rw [if_neg hne]
    exact flushLoop_shape P s history

theorem activeHistoryFlush_shape (P : Prims) (s : HandlerState) :
    (activeHistoryFlush P s).1.activeHistory.map (fun ah => ah.stepOpt) =
      s.activeHistory.map (fun ah => ah.stepOpt) := by
  unfold activeHistoryFlush
  cases hah : s.activeHistory with
  | none => rw [hah]
  | some ah =>
    simp only [hah]
    rw [Option.map_map]
    have := flushHistory_shape P s { step := ah.stepOpt, item := ah.values }
    rw [hah] at this
    cases hax : (flushHistory P s { step := ah.stepOpt, item := ah.values }).1.activeHistory with
    | none =>
      rw [hax] at this
      cases this
    | some ahx =>
      rw [hax] at this
      simp only [Option.map_some'] at this
      simpa [Function.comp] using this

theorem activeHistoryFlush_ah (P : Prims) (s : HandlerState) (so : Option HistoryStep)
    (vs : List HistoryItem) (h : s.activeHistory = some ⟨so, vs⟩) :
    (activeHistoryFlush P s).1.activeHistory = some ⟨so, []⟩ := by
  unfold activeHistoryFlush
  simp only [h]
  have hsh := flushHistory_shape P s { step := so, item := vs }
  rw [h] at hsh
  cases hax : (flushHistory P s { step := so, item := vs }).1.activeHistory with
  | none =>
    rw [hax] at hsh
    cases hsh
  | some ahx =>
    rw [hax] at hsh
    simp only [Option.map_some'] at hsh
    simp [hax, Option.some.inj hsh]

theorem ahStepNum_updateActive (s : HandlerState) (items : List HistoryItem) :
    ahStepNum (updateActive s items) = ahStepNum s :=
  ahStepNum_congr _ _ (updateActive_shape s items)

theorem ahStepNum_flush (P : Prims) (s : HandlerState) :
    ahStepNum (activeHistoryFlush P s).1 = ahStepNum s :=
  ahStepNum_congr _ _ (activeHistoryFlush_shape P s)

theorem ahStepNum_updateStep (s : HandlerState) (n : Int) (ah : ActiveHistory)
    (h : s.activeHistory = some ah) : ahStepNum (updateStep s n) = n := by
  unfold ahStepNum updateStep
  rw [h]
  rfl

theorem updateStep_ah (s : HandlerState) (n : Int) (ah : ActiveHistory)
    (h : s.activeHistory = some ah) :
    (updateStep s n).activeHistory = some { ah with stepOpt := some ⟨n⟩ } := by
  unfold updateStep
  rw [h]
  rfl

theorem updateActive_ah (s : HandlerState) (items : List HistoryItem) (ah : ActiveHistory)
    (h : s.activeHistory = some ah) :
    (updateActive s items).activeHistory =
      some { ah with values := upsertItems ah.values items } := by
  unfold updateActive
  rw [h]
  rfl

theorem phsTail_ops (P : Prims) (s : HandlerState) (request : PartialHistoryRequest)
    (outAcc : Out) (opsAcc : List HistOp) :
    (phsTail P s request outAcc opsAcc).2.2 =
      if (request.step.isNone && request.action.isNone) || actionFlush request then
        opsAcc ++ [HistOp.appendOp request.item,
          HistOp.flushOp (ahStepNum s),
          HistOp.setStepOp (ahStepNum s + 1)]
      else opsAcc ++ [HistOp.appendOp request.item] := by
  simp only [phsTail]
  by_cases hcond :
      ((request.step.isNone && request.action.isNone) || actionFlush request) = true
  · rw [if_pos hcond, if_pos hcond]
    rw [ahStepNum_flush, ahStepNum_updateActive]
    simp [List.append_assoc]
  · rw [if_neg hcond, if_neg hcond]

/-- C3 counterexample: with the accumulator at step 0, the request
(step=1, action.flush=false) has both step and action present and
flush=false, so the claim's condition is false; yet the handler flushes
the accumulator (forwarding one history record) and increments the
current step from 0 to exactly 1. -/
theorem c3_counterexample :
    hasFlushInc (handlePartialHistorySync testPrims c3State c3Req).2.2 = true ∧
    c3ClaimCond c3Req = false ∧
    (historyRecsOf (handlePartialHistorySync testPrims c3State c3Req).2.1).length = 1 ∧
    ahStepNum (handlePartialHistorySync testPrims c3State c3Req).1 = 1 := by
  refine ⟨?_, ?_, ?_, ?_⟩ <;> decide

/-- C3 (amended): in client-stepped mode, a partial-history request causes
a flush of the accumulator immediately followed by an increment of the
current step by exactly one if and only if the request is not discarded as
a step regression and, additionally, either the condition the claim states
holds ((step and action absent) or action.flush), or the request carries a
step equal to the current step plus one. -/
theorem c3_flush_increment_iff (P : Prims) (s : HandlerState)
    (request : PartialHistoryRequest) (ah : ActiveHistory) (c : Int)
    (hah : s.activeHistory = some ah) (hstep : ah.stepOpt = some ⟨c⟩) :
    hasFlushInc (handlePartialHistorySync P s request).2.2 = true ↔
      ((∀ st, request.step = some st → c ≤ st.num) ∧
       (c3ClaimCond request = true ∨ request.step = some ⟨c + 1⟩)) := by
  have hens : ensureActiveSync s = s := by
    unfold ensureActiveSync
    rw [hah]
    simp
  have hcur : ahStepNum s = c := by
    unfold ahStepNum
    rw [hah]
    simp [hstep]
  cases hreq : request.step with
  | none =>
    have hunf : handlePartialHistorySync P s request = phsTail P s request Out.nil [] := by
      unfold handlePartialHistorySync
      rw [hens, hreq]
    rw [hunf, phsTail_ops]
    by_cases hcond :
        ((request.step.isNone && request.action.isNone) || actionFlush request) = true
    · rw [if_pos hcond, hcur]
      constructor
      · intro _
        refine ⟨?_, Or.inl hcond⟩
        intro st h
        exact Option.noConfusion h
      · intro _
        simp [hasFlushInc]
    · rw [if_neg hcond]
      constructor
      · intro h
        simp [hasFlushInc] at h
      · rintro ⟨_, h2 | h2⟩
        · exact absurd h2 hcond
        · exact Option.noConfusion h2
  | some st =>
    rcases lt_trichotomy st.num c with hlt | heq | hgt
    · have hunf : (handlePartialHistorySync P s request).2.2 = [] := by
        unfold handlePartialHistorySync
        rw [hens, hreq]
        simp only [hcur]
        rw [if_neg (by omega : ¬ st.num > c), if_pos hlt]
      rw [hunf]
      constructor
      · intro h
        simp [hasFlushInc] at h
      · rintro ⟨h1, _⟩
        have := h1 st rfl
        omega
    · have hunf : handlePartialHistorySync P s request = phsTail P s request Out.nil [] := by
        unfold handlePartialHistorySync
        rw [hens, hreq]
        simp only [hcur]
        rw [if_neg (by omega : ¬ st.num > c), if_neg (by omega : ¬ st.num < c)]
      rw [hunf, phsTail_ops]
      by_cases hcond :
          ((request.step.isNone && request.action.isNone) || actionFlush request) = true
      · rw [if_pos hcond, hcur]
        constructor
        · intro _
          refine ⟨?_, Or.inl hcond⟩
          intro st' h
          obtain rfl := Option.some.inj h
          omega
        · intro _
          simp [hasFlushInc]
      · rw [if_neg hcond]
        constructor
        · intro h
          simp [hasFlushInc] at h
        · rintro ⟨_, h2 | h2⟩
          · exact absurd h2 hcond
          · have h3 : st.num = c + 1 := by rw [Option.some.inj h2]
            exact absurd h3 (by omega)
    · have hunf : handlePartialHistorySync P s request =
          phsTail P (updateStep (activeHistoryFlush P s).1 st.num) request
            (activeHistoryFlush P s).2 [HistOp.flushOp c, HistOp.setStepOp st.num] := by
        unfold handlePartialHistorySync
        rw [hens, hreq]
        simp only [hcur]
        rw [if_pos hgt]
      have hsome : ∃ ahf, (activeHistoryFlush P s).1.activeHistory = some ahf := by
        have := activeHistoryFlush_ah P s ah.stepOpt ah.values
          (by rw [hah])
        exact ⟨_, this⟩
      obtain ⟨ahf, hahf⟩ := hsome
      have hcur2 : ahStepNum (updateStep (activeHistoryFlush P s).1 st.num) = st.num :=
        ahStepNum_updateStep _ _ _ hahf
      rw [hunf, phsTail_ops, hcur2]
      by_cases hcond :
          ((request.step.isNone && request.action.isNone) || actionFlush request) = true
      · rw [if_pos hcond]
        constructor
        · intro _
          refine ⟨?_, Or.inl hcond⟩
          intro st' h
          obtain rfl := Option.some.inj h
          omega
        · intro _
          simp [hasFlushInc]
      · rw [if_neg hcond]
        constructor
        · intro h
          simp [hasFlushInc] at h
          refine ⟨?_, Or.inr ?_⟩
          · intro st' hst'
            obtain rfl := Option.some.inj hst'
            omega
          · have h3 : st = ⟨c + 1⟩ := by
              cases st
              simp only [HistoryStep.mk.injEq]
              simpa using h
            rw [h3]
        · rintro ⟨_, h2 | h2⟩
          · exact absurd h2 hcond
          · have h3 : st.num = c + 1 := by rw [Option.some.inj h2]
            rw [h3]
            simp [hasFlushInc]

/-- C3 amended witness: step = current+1 with flush=false does trigger a
flush followed by a step increment of exactly one. -/
theorem c3_flush_increment_iff_witness :
    c3State.activeHistory = some ⟨some ⟨0⟩, [⟨"loss", "1"⟩]⟩ ∧
    hasFlushInc (handlePartialHistorySync testPrims c3State c3Req).2.2 = true := by
  refine ⟨rfl, ?_⟩
  refine (c3_flush_increment_iff testPrims c3State c3Req ⟨some ⟨0⟩, [⟨"loss", "1"⟩]⟩ 0
    rfl rfl).mpr ⟨?_, Or.inr rfl⟩
  intro st h
  have := Option.some.inj h
  rw [← this]
  decide

theorem mem_setA {α : Type} (m : List (String × α)) (k : String) (v : α) (p : String × α)
    (h : p ∈ setA m k v) : p = (k, v) ∨ p ∈ m := by
  induction m with
  | nil =>
    simp [setA] at h
    exact Or.inl h
  | cons q rest ih =>
    unfold setA at h
    by_cases hq : q.1 = k
    · rw [if_pos hq] at h
      rcases List.mem_cons.mp h with rfl | h2
      · exact Or.inl rfl
      · exact Or.inr (List.mem_cons_of_mem _ h2)
    · rw [if_neg hq] at h
      rcases List.mem_cons.mp h with rfl | h2
      · exact Or.inr (List.mem_cons_self _ _)
      · rcases ih h2 with h3 | h3
        · exact Or.inl h3
        · exact Or.inr (List.mem_cons_of_mem _ h3)

theorem lookupA_mem {α : Type} (m : List (String × α)) (k : String) (v : α)
    (h : lookupA m k = some v) : ∃ kk, (kk, v) ∈ m := by
  induction m with
  | nil => cases h
  | cons q rest ih =>
    unfold lookupA at h
    by_cases hq : q.1 = k
    · rw [if_pos hq] at h
      refine ⟨q.1, ?_⟩
      rw [← Option.some.inj h, Prod.mk.eta]
      exact List.mem_cons_self _ _
    · rw [if_neg hq] at h
      obtain ⟨kk, hk⟩ := ih h
      exact ⟨kk, List.mem_cons_of_mem _ hk⟩

theorem stepMetricAvoids_congr (s1 s2 : HandlerState) (bad : List String)
    (h : s1.metricHandler = s2.metricHandler) (h2 : stepMetricAvoids s2 bad) :
    stepMetricAvoids s1 bad := by
  intro mh hmh
  exact h2 mh (by rw [← h]; exact hmh)

theorem handleStepMetric_mh (s : HandlerState) (key : String) :
    (handleStepMetric s key).1 = s ∨
    ∃ mh, s.metricHandler = some mh ∧
      (handleStepMetric s key).1 =
        { s with metricHandler := some { mh with defined := setA mh.defined key ⟨key, "", "", none⟩ } } := by
  unfold handleStepMetric
  by_cases hk : key = ""
  · rw [if_pos hk]
    exact Or.inl rfl
  rw [if_neg hk]
  cases hmh : s.metricHandler with
  | none => exact Or.inl rfl
  | some mh =>
    simp only []
    by_cases hl : (lookupA mh.defined key).isSome = true
    · rw [if_pos hl]
      exact Or.inl rfl
    · rw [if_neg hl]
      exact Or.inr ⟨mh, rfl, rfl⟩

theorem handleStepMetric_avoids (s : HandlerState) (key : String) (bad : List String)
    (hempty : "" ∉ bad) (h : stepMetricAvoids s bad) :
    stepMetricAvoids (handleStepMetric s key).1 bad := by
  rcases handleStepMetric_mh s key with heq | ⟨mh, hmh, heq⟩
  · rw [heq]
    exact h
  · rw [heq]
    intro mh2 hmh2
    obtain rfl := Option.some.inj hmh2
    constructor
    · intro p hp
      rcases mem_setA _ _ _ _ hp with rfl | hp2
      · exact hempty
      · exact (h mh hmh).1 p hp2
    · intro p hp
      exact (h mh hmh).2 p hp

theorem handleMetric_mh (s : HandlerState) (record : Record) (metric : MetricRecord) :
    (handleMetric s record metric).1 = s ∨
    (∃ mh, s.metricHandler = some mh ∧
      (handleMetric s record metric).1 =
        { s with metricHandler := some { mh with globs := setA mh.globs metric.globName metric } }) ∨
    (∃ mh, s.metricHandler = some mh ∧
      (handleMetric s record metric).1 =
        (handleStepMetric
          { s with metricHandler := some { mh with defined := setA mh.defined metric.name metric } }
          metric.stepMetric).1) := by
  unfold handleMetric
  cases hmh : s.metricHandler with
  | none => exact Or.inl rfl
  | some mh =>
    simp only []
    by_cases hg : metric.globName ≠ ""
    · rw [if_pos hg]
      exact Or.inr (Or.inl ⟨mh, rfl, rfl⟩)
    · rw [if_neg hg]
      by_cases hn : metric.name ≠ ""
      · rw [if_pos hn]
        exact Or.inr (Or.inr ⟨mh, rfl, rfl⟩)
      · rw [if_neg hn]
        exact Or.inl rfl

theorem handleMetric_avoids (s : HandlerState) (record : Record) (metric : MetricRecord)
    (bad : List String) (hempty : "" ∉ bad) (hsm : metric.stepMetric ∉ bad)
    (h : stepMetricAvoids s bad) :
    stepMetricAvoids (handleMetric s record metric).1 bad := by
  rcases handleMetric_mh s record metric with heq | ⟨mh, hmh, heq⟩ | ⟨mh, hmh, heq⟩
  · rw [heq]
    exact h
  · rw [heq]
    intro mh2 hmh2
    obtain rfl := Option.some.inj hmh2
    constructor
    · intro p hp
      exact (h mh hmh).1 p hp
    · intro p hp
      rcases mem_setA _ _ _ _ hp with rfl | hp2
      · exact hsm
      · exact (h mh hmh).2 p hp2
  · rw [heq]
    refine handleStepMetric_avoids _ _ _ hempty ?_
    intro mh2 hmh2
    obtain rfl := Option.some.inj hmh2
    constructor
    · intro p hp
      rcases mem_setA _ _ _ _ hp with rfl | hp2
      · exact hsm
      · exact (h mh hmh).1 p hp2
    · intro p hp
      exact (h mh hmh).2 p hp

theorem matchHIM_avoids (P : Prims) (s : HandlerState) (item : HistoryItem)
    (bad : List String) (hempty : "" ∉ bad) (h : stepMetricAvoids s bad) :
    stepMetricAvoids (matchHistoryItemMetric P s item).1 bad ∧
    (∀ m, (matchHistoryItemMetric P s item).2.2 = some m → m.stepMetric ∉ bad) := by
  unfold matchHistoryItemMetric
  by_cases hu : hasUnderscoreStart item.key = true
  · rw [if_pos hu]
    exact ⟨h, fun m hm => Option.noConfusion hm⟩
  rw [if_neg hu]
  cases hmh : s.metricHandler with
  | none => exact ⟨h, fun m hm => Option.noConfusion hm⟩
  | some mh =>
    simp only []
    cases hd : lookupA mh.defined item.key with
    | some metric =>
      refine ⟨h, ?_⟩
      intro m hm
      have hv := Option.some.inj hm
      obtain ⟨kk, hk⟩ := lookupA_mem _ _ _ hd
      rw [← hv]
      exact (h mh hmh).1 (kk, metric) hk
    | none =>
      simp only []
      cases hc : createMatchingGlobMetric P mh.globs item.key with
      | none => exact ⟨h, fun m hm => Option.noConfusion hm⟩
      | some metric =>
        have hgm : metric.stepMetric ∉ bad := by
          unfold createMatchingGlobMetric at hc
          cases hf : mh.globs.find? (fun g => P.globMatch g.1 item.key) with
          | none =>
            rw [hf] at hc
            cases hc
          | some g =>
            rw [hf] at hc
            have hmem := List.mem_of_find?_eq_some hf
            have := (h mh hmh).2 g hmem
            rw [← Option.some.inj hc]
            exact this
        refine ⟨handleMetric_avoids _ _ _ _ hempty hgm h, ?_⟩
        intro m hm
        obtain rfl := Option.some.inj hm
        exact hgm

theorem imputeStepMetric_fst_mh (P : Prims) (s : HandlerState) (item : HistoryItem) :
    (imputeStepMetric P s item).1.metricHandler =
      (matchHistoryItemMetric P s item).1.metricHandler := by
  simp only [imputeStepMetric]
  split_ifs
  · rfl
  · rfl
  · cases h : lookupA (consolidatedOf (matchHistoryItemMetric P s item).1)
        (stepMetricOf (matchHistoryItemMetric P s item).2.2) with
    | none => simp only [h]
    | some v => simp only [h]; rfl

theorem imputeStepMetric_avoids (P : Prims) (s : HandlerState) (item : HistoryItem)
    (bad : List String) (hempty : "" ∉ bad) (h : stepMetricAvoids s bad) :
    stepMetricAvoids (imputeStepMetric P s item).1 bad ∧
    (∀ hi, (imputeStepMetric P s item).2.2 = some hi → hi.key ∉ bad) := by
  have hmm := matchHIM_avoids P s item bad hempty h
  refine ⟨stepMetricAvoids_congr _ _ _ (imputeStepMetric_fst_mh P s item) hmm.1, ?_⟩
  intro hi hh
  rw [imputeStepMetric_snd] at hh
  cases hm : (matchHistoryItemMetric P s item).2.2 with
  | none =>
    rw [hm] at hh
    cases hh
  | some m =>
    simp only [hm] at hh
    by_cases hc : (stepSyncOf (some m) && !decide (m.stepMetric = "")) = true
    · rw [if_pos hc] at hh
      by_cases ha : (getActiveItem (matchHistoryItemMetric P s item).1 m.stepMetric).isSome = true
      · rw [if_pos ha] at hh
        cases hh
      · rw [if_neg ha] at hh
        cases hl : lookupA (consolidatedOf (matchHistoryItemMetric P s item).1) m.stepMetric with
        | none =>
          rw [hl] at hh
          cases hh
        | some value =>
          rw [hl] at hh
          obtain rfl := (Option.some.inj hh).symm
          exact hmm.2 m hm
    · rw [if_neg hc] at hh
      cases hh

theorem imputeLoop_avoids (P : Prims) (items : List HistoryItem) (bad : List String)
    (hempty : "" ∉ bad) :
    ∀ s, stepMetricAvoids s bad →
      stepMetricAvoids (imputeLoop P s items).1 bad ∧
      ∀ hi ∈ (imputeLoop P s items).2.2, hi.key ∉ bad := by
  induction items with
  | nil =>
    intro s h
    refine ⟨h, ?_⟩
    intro hi hh
    cases hh
  | cons item rest ih =>
    intro s h
    have h1 := imputeStepMetric_avoids P s item bad hempty h
    have h2 := ih (imputeStepMetric P s item).1 h1.1
    refine ⟨h2.1, ?_⟩
    intro hi hh
    have hh2 : hi ∈ (imputeStepMetric P s item).2.2.toList ++
        (imputeLoop P (imputeStepMetric P s item).1 rest).2.2 := hh
    rcases List.mem_append.mp hh2 with hh3 | hh3
    · have hh4 : (imputeStepMetric P s item).2.2 = some hi := by
        cases hx : (imputeStepMetric P s item).2.2 with
        | none =>
          rw [hx] at hh3
          cases hh3
        | some y =>
          rw [hx] at hh3
          simp [Option.toList] at hh3
          rw [hh3]
      exact h1.2 hi hh4
    · exact h2.2 hi hh3

theorem flushLoop_appended_avoid (P : Prims) (s : HandlerState) (history : HistoryRecord)
    (bad : List String) (hempty : "" ∉ bad) (h : stepMetricAvoids s bad) :
    ∀ hi ∈ (flushLoop P s history).2.2, hi.key ∉ bad := by
  unfold flushLoop
  split
  · exact (imputeLoop_avoids P _ bad hempty s h).2
  · intro hi hh
    cases hh

theorem countKey_append (a b : List HistoryItem) (k : String) :
    countKey (a ++ b) k = countKey a k + countKey b k := by
  simp [countKey, List.filter_append]

theorem countKey_single_eq (k v : String) : countKey [⟨k, v⟩] k = 1 := by
  simp [countKey]

theorem countKey_single_ne (k1 k2 v : String) (h : k1 ≠ k2) : countKey [⟨k1, v⟩] k2 = 0 := by
  simp [countKey, h]

theorem countKey_zero_of (l : List HistoryItem) (k : String) (h : ∀ hi ∈ l, hi.key ≠ k) :
    countKey l k = 0 := by
  induction l with
  | nil => rfl
  | cons it rest ih =>
    have h1 : (it.key == k) = false := by
      have := h it (by simp)
      simp [this]
    unfold countKey
    rw [List.filter_cons]
    simp only [h1, Bool.false_eq_true, if_false]
    exact ih (fun hi hh => h hi (List.mem_cons_of_mem _ hh))

/-- C7 counterexample: a user-supplied item with the reserved key _runtime
makes the forwarded record contain _runtime twice, although the claim
requires exactly one occurrence regardless of the user's items. -/
theorem c7_counterexample :
    countKey c7Rec.item "_runtime" = 1 ∧
    countKey (flushFinalItems testPrims baseState c7Rec) "_runtime" = 2 := by
  constructor <;> decide

/-- C7 (amended): a flushed non-empty history record whose user items do
not use the reserved keys _runtime/_step, flushed by a handler none of
whose registered metrics names _runtime or _step as a step metric, is
forwarded containing _runtime exactly once and, outside shared mode,
_step exactly once. -/
theorem c7_internal_items_amended (P : Prims) (s : HandlerState) (history : HistoryRecord)
    (hne : history.item ≠ [])
    (hrt : countKey history.item "_runtime" = 0)
    (hst : countKey history.item "_step" = 0)
    (havoid : stepMetricAvoids s ["_runtime", "_step"]) :
    (flushHistory P s history).2.fwds.getLast? =
      some { control := none,
             rtype := RecType.history
               { step := history.step, item := flushFinalItems P s history } } ∧
    countKey (flushFinalItems P s history) "_runtime" = 1 ∧
    (s.settings.xShared = false → countKey (flushFinalItems P s history) "_step" = 1) := by
  have hempty : ("" : String) ∉ ["_runtime", "_step"] := by decide
  have happ := flushLoop_appended_avoid P s history ["_runtime", "_step"] hempty havoid
  have happrt : countKey (flushLoop P s history).2.2 "_runtime" = 0 := by
    refine countKey_zero_of _ _ ?_
    intro hi hh hk
    exact happ hi hh (by rw [hk]; simp)
  have happst : countKey (flushLoop P s history).2.2 "_step" = 0 := by
    refine countKey_zero_of _ _ ?_
    intro hi hh hk
    exact happ hi hh (by rw [hk]; simp)
  refine ⟨?_, ?_, ?_⟩
  · rw [flushHistory_fwds P s history hne]
    exact getLast_append_single _ _
  · unfold flushFinalItems
    rw [countKey_append, happrt]
    cases hx : s.settings.xShared with
    | true =>
      have he : flushItems2 P s history =
          history.item ++ [⟨"_runtime", P.fmtFloat (flushRunTime P s)⟩] := by
        simp [flushItems2, hx]
      rw [he, countKey_append, hrt, countKey_single_eq]
    | false =>
      have he : flushItems2 P s history =
          history.item ++ [⟨"_runtime", P.fmtFloat (flushRunTime P s)⟩] ++
            [⟨"_step", toString (stepNumOf history)⟩] := by
        simp [flushItems2, hx]
      rw [he, countKey_append, countKey_append, hrt, countKey_single_eq,
        countKey_single_ne _ _ _ (by decide)]
  · intro hx
    unfold flushFinalItems
    rw [countKey_append, happst]
    have he : flushItems2 P s history =
        history.item ++ [⟨"_runtime", P.fmtFloat (flushRunTime P s)⟩] ++
          [⟨"_step", toString (stepNumOf history)⟩] := by
      simp [flushItems2, hx]
    rw [he, countKey_append, countKey_append, hst, countKey_single_ne _ _ _ (by decide),
      countKey_single_eq]

/-- C7 amended witness: an ordinary one-item record in the base handler
carries _runtime and _step exactly once each. -/
theorem c7_internal_items_amended_witness :
    countKey (flushFinalItems testPrims baseState c7GoodRec) "_runtime" = 1 ∧
    countKey (flushFinalItems testPrims baseState c7GoodRec) "_step" = 1 := by
  have havoid : stepMetricAvoids baseState ["_runtime", "_step"] := by
    intro mh hmh
    obtain rfl := Option.some.inj hmh
    constructor
    · intro p hp
      cases hp
    · intro p hp
      cases hp
  have h := c7_internal_items_amended testPrims baseState c7GoodRec (by decide) (by decide)
    (by decide) havoid
  exact ⟨h.2.1, h.2.2 rfl⟩

theorem noHist_of_noFwds (out : Out) (h : out.fwds = []) : noHist out := by
  intro r hr
  rw [h] at hr
  cases hr

theorem noHist_fwd1 (r : Record) (h : r.rtype.isHistT = false) : noHist (Out.fwd1 r) := by
  intro r2 h2
  simp [Out.fwd1] at h2
  rw [h2]
  exact h

theorem noHist_app (a b : Out) (ha : noHist a) (hb : noHist b) : noHist (a.app b) := by
  intro r h
  rw [Out.app_fwds] at h
  rcases List.mem_append.mp h with h1 | h1
  · exact ha r h1
  · exact hb r h1

theorem handleStepMetric_noHist (s : HandlerState) (key : String) :
    noHist (handleStepMetric s key).2 := by
  unfold handleStepMetric
  split
  · exact noHist_of_noFwds _ rfl
  split
  · exact noHist_of_noFwds _ rfl
  split
  · exact noHist_of_noFwds _ rfl
  · exact noHist_fwd1 _ rfl

theorem handleMetric_noHist (s : HandlerState) (record : Record) (metric : MetricRecord)
    (hrec : record.rtype.isHistT = false) : noHist (handleMetric s record metric).2 := by
  unfold handleMetric
  split
  · exact noHist_of_noFwds _ rfl
  split
  · exact noHist_fwd1 _ hrec
  split
  · exact noHist_app _ _ (handleStepMetric_noHist _ _) (noHist_fwd1 _ hrec)
  · exact noHist_of_noFwds _ rfl

theorem matchHistoryItemMetric_noHist (P : Prims) (s : HandlerState) (item : HistoryItem) :
    noHist (matchHistoryItemMetric P s item).2.1 := by
  unfold matchHistoryItemMetric
  split
  · exact noHist_of_noFwds _ rfl
  split
  · exact noHist_of_noFwds _ rfl
  split
  · exact noHist_of_noFwds _ rfl
  split
  · exact noHist_of_noFwds _ rfl
  · exact handleMetric_noHist _ _ _ rfl

theorem imputeStepMetric_noHist (P : Prims) (s : HandlerState) (item : HistoryItem) :
    noHist (imputeStepMetric P s item).2.1 := by
  simp only [imputeStepMetric]
  split_ifs
  · exact matchHistoryItemMetric_noHist P s item
  · exact matchHistoryItemMetric_noHist P s item
  · cases h : lookupA (consolidatedOf (matchHistoryItemMetric P s item).1)
        (stepMetricOf (matchHistoryItemMetric P s item).2.2) with
    | none =>
      simp only [h]
      exact matchHistoryItemMetric_noHist P s item
    | some v =>
      simp only [h]
      exact matchHistoryItemMetric_noHist P s item

theorem imputeLoop_noHist (P : Prims) (items : List HistoryItem) :
    ∀ s, noHist (imputeLoop P s items).2.1 := by
  induction items with
  | nil =>
    intro s
    exact noHist_of_noFwds _ rfl
  | cons item rest ih =>
    intro s
    exact noHist_app _ _ (imputeStepMetric_noHist P s item) (ih _)

theorem flushLoop_noHist (P : Prims) (s : HandlerState) (history : HistoryRecord) :
    noHist (flushLoop P s history).2.1 := by
  unfold flushLoop
  split
  · exact imputeLoop_noHist P _ s
  · exact noHist_of_noFwds _ rfl

theorem filterMap_hist_nil (l : List Record) (h : ∀ r ∈ l, r.rtype.isHistT = false) :
    l.filterMap (fun r =>
      match r.rtype with
      | RecType.history hr => some hr
      | _ => none) = [] := by
  induction l with
  | nil => rfl
  | cons r rest ih =>
    rw [List.filterMap_cons]
    have hr := h r (by simp)
    have hnone : (match r.rtype with
        | RecType.history hr => some hr
        | _ => none) = (none : Option HistoryRecord) := by
      cases hrt : r.rtype with
      | history x =>
        rw [hrt] at hr
        simp [RecType.isHistT] at hr
      | metric m => rfl
      | summaryRec u => rfl
      | exit n => rfl
      | final => rfl
      | footer => rfl
      | deferRec d => rfl
    rw [hnone]
    exact ih (fun r2 h2 => h r2 (List.mem_cons_of_mem _ h2))

theorem historyRecsOf_app (a b : Out) :
    historyRecsOf (a.app b) = historyRecsOf a ++ historyRecsOf b := by
  unfold historyRecsOf
  rw [Out.app_fwds, List.filterMap_append]

theorem historyRecsOf_of_fwds_nil (out : Out) (h : out.fwds = []) : historyRecsOf out = [] := by
  unfold historyRecsOf
  rw [h]
  rfl

theorem flushHistory_histRecs (P : Prims) (s : HandlerState) (history : HistoryRecord)
    (hne : history.item ≠ []) :
    historyRecsOf (flushHistory P s history).2 =
      [{ step := history.step, item := flushFinalItems P s history }] := by
  unfold historyRecsOf
  rw [flushHistory_fwds P s history hne, List.filterMap_append,
    filterMap_hist_nil _ (flushLoop_noHist P s history)]
  rfl

theorem flushHistory_empty_out (P : Prims) (s : HandlerState) (history : HistoryRecord)
    (h : history.item = []) :
    (flushHistory P s history).2 = Out.nil ∧ (flushHistory P s history).1 = s := by
  unfold flushHistory
  rw [if_pos h]
  exact ⟨rfl, rfl⟩

theorem upsertOne_not_mem (values : List HistoryItem) (it : HistoryItem)
    (h : ∀ v ∈ values, v.key ≠ it.key) : upsertOne values it = values ++ [it] := by
  induction values with
  | nil => rfl
  | cons v rest ih =>
    unfold upsertOne
    rw [if_neg (h v (by simp))]
    rw [ih (fun v2 hv2 => h v2 (List.mem_cons_of_mem _ hv2))]
    rfl

theorem upsertItems_disjoint (items : List HistoryItem) :
    ∀ values : List HistoryItem,
      (∀ i ∈ items, ∀ v ∈ values, v.key ≠ i.key) →
      (items.map (fun it => it.key)).Nodup →
      upsertItems values items = values ++ items := by
  induction items with
  | nil =>
    intro values _ _
    simp [upsertItems]
  | cons it rest ih =>
    intro values hdis hnd
    have hstep : upsertItems values (it :: rest) = upsertItems (upsertOne values it) rest := rfl
    rw [hstep, upsertOne_not_mem values it (fun v hv => hdis it (by simp) v hv)]
    have hnd2 : (rest.map (fun it => it.key)).Nodup := by
      rw [List.map_cons, List.nodup_cons] at hnd
      exact hnd.2
    have hhd : it.key ∉ rest.map (fun it => it.key) := by
      rw [List.map_cons, List.nodup_cons] at hnd
      exact hnd.1
    have hdis2 : ∀ i ∈ rest, ∀ v ∈ values ++ [it], v.key ≠ i.key := by
      intro i hi v hv
      rcases List.mem_append.mp hv with hv1 | hv2
      · exact hdis i (List.mem_cons_of_mem _ hi) v hv1
      · have hv3 : v = it := by
          rcases List.mem_cons.mp hv2 with h3 | h3
          · exact h3
          · cases h3
        rw [hv3]
        intro hcontra
        exact hhd (by rw [hcontra]; exact List.mem_map_of_mem _ hi)
    rw [ih (values ++ [it]) hdis2 hnd2]
    simp

theorem ensureActiveSync_idem (s : HandlerState) :
    ensureActiveSync (ensureActiveSync s) = ensureActiveSync s := by
  unfold ensureActiveSync
  cases h : s.activeHistory <;> simp [h]

theorem phs_ensure (P : Prims) (s : HandlerState) (request : PartialHistoryRequest) :
    handlePartialHistorySync P s request =
      handlePartialHistorySync P (ensureActiveSync s) request := by
  unfold handlePartialHistorySync
  rw [ensureActiveSync_idem]

theorem phsFlushOnce (P : Prims) (s : HandlerState) (items : List HistoryItem) (c : Int)
    (hah : s.activeHistory = some ⟨some ⟨c⟩, []⟩)
    (hnd : (items.map (fun it => it.key)).Nodup) :
    (handlePartialHistorySync P s ⟨items, none, some ⟨true⟩⟩).1.activeHistory =
      some ⟨some ⟨c + 1⟩, []⟩ ∧
    (items ≠ [] →
      historyRecsOf (handlePartialHistorySync P s ⟨items, none, some ⟨true⟩⟩).2.1 =
        [{ step := some ⟨c⟩,
           item := flushFinalItems P (updateActive s items)
             { step := some ⟨c⟩, item := items } }] ∧
      ∀ i ∈ items, i ∈ flushFinalItems P (updateActive s items)
        { step := some ⟨c⟩, item := items }) ∧
    (items = [] →
      (handlePartialHistorySync P s ⟨items, none, some ⟨true⟩⟩).2.1.fwds = []) := by
  have hens : ensureActiveSync s = s := by
    unfold ensureActiveSync
    rw [hah]
    simp
  have hupdate : upsertItems ([] : List HistoryItem) items = items := by
    have h := upsertItems_disjoint items [] (fun i _ v hv => absurd hv (List.not_mem_nil v)) hnd
    simpa using h
  have hs1 : (updateActive s items).activeHistory = some ⟨some ⟨c⟩, items⟩ := by
    rw [updateActive_ah s items _ hah]
    simp [hupdate]
  have hcond : (((⟨items, none, some ⟨true⟩⟩ : PartialHistoryRequest).step.isNone &&
      (⟨items, none, some ⟨true⟩⟩ : PartialHistoryRequest).action.isNone) ||
      actionFlush ⟨items, none, some ⟨true⟩⟩) = true := rfl
  have hunf : handlePartialHistorySync P s ⟨items, none, some ⟨true⟩⟩ =
      phsTail P s ⟨items, none, some ⟨true⟩⟩ Out.nil [] := by
    unfold handlePartialHistorySync
    rw [hens]
  have hfst : (handlePartialHistorySync P s ⟨items, none, some ⟨true⟩⟩).1 =
      updateStep (activeHistoryFlush P (updateActive s items)).1
        (ahStepNum (activeHistoryFlush P (updateActive s items)).1 + 1) := by
    rw [hunf]
    simp only [phsTail]
    rw [if_pos hcond]
  have hsnd : (handlePartialHistorySync P s ⟨items, none, some ⟨true⟩⟩).2.1 =
      Out.nil.app (activeHistoryFlush P (updateActive s items)).2 := by
    rw [hunf]
    simp only [phsTail]
    rw [if_pos hcond]
  have hflushA : (activeHistoryFlush P (updateActive s items)).1.activeHistory =
      some ⟨some ⟨c⟩, []⟩ := activeHistoryFlush_ah P _ (some ⟨c⟩) items hs1
  have hstepn : ahStepNum (activeHistoryFlush P (updateActive s items)).1 = c := by
    rw [ahStepNum_flush, ahStepNum_updateActive]
    unfold ahStepNum
    rw [hah]
    simp
  have hout : (activeHistoryFlush P (updateActive s items)).2 =
      (flushHistory P (updateActive s items) { step := some ⟨c⟩, item := items }).2 := by
    unfold activeHistoryFlush
    simp only [hs1]
  refine ⟨?_, ?_, ?_⟩
  · rw [hfst, hstepn, updateStep_ah _ _ _ hflushA]
  · intro hne
    constructor
    · rw [hsnd, historyRecsOf_app,
        historyRecsOf_of_fwds_nil Out.nil rfl, List.nil_append, hout]
      exact flushHistory_histRecs P _ _ hne
    · intro i hi
      rw [flushFinalItems_eq]
      exact List.mem_append_left _ hi
  · intro hemp
    subst hemp
    rw [hsnd]
    have hfe := flushHistory_empty_out P (updateActive s [])
      { step := some ⟨c⟩, item := [] } rfl
    rw [Out.app_fwds, hout, hfe.1]
    rfl

/-- C9 counterexample: replaying the same flush=true request (no step, one
item (loss, 5)) from a fresh handler forwards two history records, and
every forwarded record, including the second, contains the non-internal
user item (loss, 5), contradicting the claimed empty-but-for-internals
second record; replaying the same request with an empty item list forwards
no history record at all, contradicting the claimed single record. -/
theorem c9_counterexample :
    (historyRecsOf (phsTwice testPrims baseState c9Req).2).length = 2 ∧
    (∀ hr ∈ historyRecsOf (phsTwice testPrims baseState c9Req).2,
      (⟨"loss", "5"⟩ : HistoryItem) ∈ hr.item) ∧
    historyRecsOf (phsTwice testPrims baseState c9ReqEmpty).2 = [] := by
  refine ⟨?_, ?_, ?_⟩ <;> decide

/-- C9 (amended): replaying the same flush=true no-step request twice from
an empty accumulator at step c forwards, when the item list is non-empty
with distinct keys, exactly two history records, at steps c and c+1, each
containing every item of the request; and no history record at all when
the item list is empty. -/
theorem c9_replay_amended (P : Prims) (s : HandlerState) (items : List HistoryItem) (c : Int)
    (hah : (ensureActiveSync s).activeHistory = some ⟨some ⟨c⟩, []⟩)
    (hnd : (items.map (fun it => it.key)).Nodup) :
    (items ≠ [] →
      (historyRecsOf (phsTwice P s ⟨items, none, some ⟨true⟩⟩).2).length = 2 ∧
      (historyRecsOf (phsTwice P s ⟨items, none, some ⟨true⟩⟩).2).map (fun hr => hr.step) =
        [some ⟨c⟩, some ⟨c + 1⟩] ∧
      ∀ hr ∈ historyRecsOf (phsTwice P s ⟨items, none, some ⟨true⟩⟩).2,
        ∀ i ∈ items, i ∈ hr.item) ∧
    (items = [] → historyRecsOf (phsTwice P s ⟨items, none, some ⟨true⟩⟩).2 = []) := by
  have h1 := phsFlushOnce P (ensureActiveSync s) items c hah hnd
  have hfirst : handlePartialHistorySync P s ⟨items, none, some ⟨true⟩⟩ =
      handlePartialHistorySync P (ensureActiveSync s) ⟨items, none, some ⟨true⟩⟩ :=
    phs_ensure P s ⟨items, none, some ⟨true⟩⟩
  have h2 := phsFlushOnce P
    (handlePartialHistorySync P s ⟨items, none, some ⟨true⟩⟩).1 items (c + 1)
    (by rw [hfirst]; exact h1.1) hnd
  have htw : (phsTwice P s ⟨items, none, some ⟨true⟩⟩).2 =
      (handlePartialHistorySync P s ⟨items, none, some ⟨true⟩⟩).2.1.app
        (handlePartialHistorySync P
          (handlePartialHistorySync P s ⟨items, none, some ⟨true⟩⟩).1
          ⟨items, none, some ⟨true⟩⟩).2.1 := rfl
  rw [hfirst] at h2
  constructor
  · intro hne
    have e1 := h1.2.1 hne
    have e2 := h2.2.1 hne
    rw [htw, historyRecsOf_app, hfirst, e1.1, e2.1]
    refine ⟨rfl, rfl, ?_⟩
    intro hr hhr i hi
    rcases List.mem_cons.mp hhr with rfl | hhr2
    · exact e1.2 i hi
    · rcases List.mem_cons.mp hhr2 with rfl | hhr3
      · exact e2.2 i hi
      · cases hhr3
  · intro hemp
    have e1 := h1.2.2 hemp
    have e2 := h2.2.2 hemp
    rw [htw, historyRecsOf_app, hfirst,
      historyRecsOf_of_fwds_nil _ e1, historyRecsOf_of_fwds_nil _ e2]
    rfl

/-- C9 amended witness: the concrete replay of (loss, 5) yields two
records at steps 0 and 1. -/
theorem c9_replay_amended_witness :
    (historyRecsOf (phsTwice testPrims baseState c9Req).2).map (fun hr => hr.step) =
      [some ⟨0⟩, some ⟨1⟩] := by
  have h := (c9_replay_amended testPrims baseState [⟨"loss", "5"⟩] 0 (by decide) (by decide)).1
    (by decide)
  exact h.2.1

end Wandb
